import Mathlib

/-!
Verification of the flakiness-report core: a shallow embedding of the
report data model, the zod-based validators (`schema.Report` from
`src/schema.ts` and `Schema.Report` from `src/v1/reportV1.ts`), the
version-migration functions (`migrateToV0`, `migrateToV1`,
`migrateToLatest` from `src/migrations.ts`) and the suite/test traversal
utilities (`findTest`, `visitTests`, `visitTestsAsync` from
`src/flakinessReport.ts`), together with proofs about them.
-/

/-- Model of a JavaScript runtime value (the JSON data types plus
`undefined`). Objects are ordered key-value lists, mirroring JS object
insertion order; keys are unique. -/
inductive JValue where
  | undef
  | nullv
  | boolv (b : Bool)
  | num (n : Int)
  | str (s : String)
  | arr (elems : List JValue)
  | obj (fields : List (String × JValue))
deriving Repr, Inhabited

mutual

/-- Size measure on JS values: leaves weigh 0, each array element /
object field adds 1, used for termination of recursive validators. -/
def JValue.size : JValue → Nat
  | .undef => 0
  | .nullv => 0
  | .boolv _ => 0
  | .num _ => 0
  | .str _ => 0
  | .arr es => 1 + sizeList es
  | .obj fs => 1 + sizeFields fs

/-- Combined size of a list of JS values. -/
def sizeList : List JValue → Nat
  | [] => 0
  | v :: vs => 1 + JValue.size v + sizeList vs

/-- Combined size of an object field list. -/
def sizeFields : List (String × JValue) → Nat
  | [] => 0
  | (_, v) :: fs => 1 + JValue.size v + sizeFields fs

end

/-- Key lookup in an object field list (first occurrence; JS object keys
are unique). -/
def jlookup : List (String × JValue) → String → Option JValue
  | [], _ => none
  | (k, v) :: rest, key => if k = key then some v else jlookup rest key

/-- Effect of the JS `delete obj.key` statement on a field list. -/
def delKey : List (String × JValue) → String → List (String × JValue)
  | [], _ => []
  | (k, v) :: rest, key => if k = key then rest else (k, v) :: delKey rest key

/-- Effect of assigning `key: val` in a JS object literal: an existing
key keeps its position and gets the new value, a new key is appended. -/
def setKey : List (String × JValue) → String → JValue → List (String × JValue)
  | [], key, val => [(key, val)]
  | (k, v) :: rest, key, val =>
      if k = key then (k, val) :: rest else (k, v) :: setKey rest key val

/-- JS property read `v.key`: `undefined` for a missing key or a
non-object receiver (the `null`/`undefined` TypeError is handled at
call sites). -/
def JValue.get (v : JValue) (key : String) : JValue :=
  match v with
  | .obj fields => (jlookup fields key).getD .undef
  | _ => (.undef)

/-- JS statement `delete v.key`: removes the key from an object, throws
a TypeError (modelled as `none`) on `null`/`undefined`, and is a no-op
on other primitives and arrays. -/
def jdeleteKey (v : JValue) (key : String) : Option JValue :=
  match v with
  | .obj fields => some (.obj (delKey fields key))
  | .undef => none
  | .nullv => none
  | other => some other

/-- The loop `for (const env of input.environments) delete env.opaqueData`
over an array of environments. -/
def delOpqList : List JValue → Option (List JValue)
  | [] => some []
  | e :: rest =>
      match jdeleteKey e "opaqueData", delOpqList rest with
      | some v, some vs => some (v :: vs)
      | _, _ => none

/-- One environment of the result array built by `migrateToV1`:
the JS object literal spreads `env` and then assigns
`userSuppliedData: undefined` (the key stays present, holding
`undefined`) and `metadata: env.userSuppliedData`. Spreading a
non-object primitive contributes no fields; spreading strings or
arrays (numeric keys) is not modelled. -/
def spreadEnv (env : JValue) : Option JValue :=
  match env with
  | .obj fields =>
      some (.obj (setKey (setKey fields "userSuppliedData" .undef) "metadata"
        ((jlookup fields "userSuppliedData").getD .undef)))
  | .num _ => some (.obj [("userSuppliedData", .undef), ("metadata", .undef)])
  | .boolv _ => some (.obj [("userSuppliedData", .undef), ("metadata", .undef)])
  | _ => none

/-- Mapping `spreadEnv` over the environments array
(`input.environments.map(env => (\x7b...env, ...\x7d))`). -/
def spreadEnvList : List JValue → Option (List JValue)
  | [] => some []
  | e :: rest =>
      match spreadEnv e, spreadEnvList rest with
      | some v, some vs => some (v :: vs)
      | _, _ => none

/-- Embedding of `migrateToV0` from `src/migrations.ts`: a no-op that
returns its input. -/
def migrateToV0 (input : JValue) : JValue :=
  input

/-- Embedding of the `migrateToLatest` export of `src/index.ts`, which
is an alias for `migrateToV0`. -/
def migrateToLatest (input : JValue) : JValue :=
  migrateToV0 input

/-- The strict comparison `v === 1`. -/
def isNumOne (v : JValue) : Bool :=
  match v with
  | .num n => n == 1
  | _ => false

/-- Embedding of `migrateToV1` from `src/migrations.ts`. Reading
`input.version` on `null`/`undefined` throws (modelled as `none`);
a document whose `version` is `1` is returned unchanged; otherwise the
input is deep-copied (`structuredClone`, the identity in this value
semantics), `opaqueData` is deleted at the root and on each
environment, and the result object re-spreads the copy with the
migrated environments array and `version: 1`. Iterating a missing or
non-array `environments` throws (`none`). -/
def migrateToV1 (input : JValue) : Option JValue :=
  match input with
  | .undef => none
  | .nullv => none
  | _ =>
    if isNumOne (input.get "version") then some input
    else
      match input with
      | .obj fields =>
          let fields1 := delKey fields "opaqueData"
          match jlookup fields1 "environments" with
          | some (.arr envs) =>
              match delOpqList envs with
              | some envs1 =>
                  match spreadEnvList envs1 with
                  | some envs2 =>
                      some (.obj (setKey (setKey fields1 "environments" (.arr envs2))
                        "version" (.num 1)))
                  | none => none
              | none => none
          | _ => none
      | _ => none

mutual

/-- Values held under every occurrence of a given object key anywhere
inside a JS value (document order). -/
def JValue.keyVals (key : String) : JValue → List JValue
  | .arr es => keyValsList key es
  | .obj fs => keyValsFields key fs
  | _ => []

/-- Occurrences of a key inside any element of an array. -/
def keyValsList (key : String) : List JValue → List JValue
  | [] => []
  | v :: vs => JValue.keyVals key v ++ keyValsList key vs

/-- Occurrences of a key inside an object field list, the field itself
included. -/
def keyValsFields (key : String) : List (String × JValue) → List JValue
  | [] => []
  | (k, v) :: fs =>
      (if k = key then [v] else []) ++ JValue.keyVals key v ++ keyValsFields key fs

end

/-- Suite node kind (`'file' | 'anonymous suite' | 'suite'`). -/
inductive SuiteKind where
  | file
  | anonymousSuite
  | suite
deriving Repr, DecidableEq

/-- Source location (`file`, `line`, `column`). -/
structure SrcLocation where
  file : String
  line : Int
  column : Int
deriving Repr, DecidableEq

/-- Suite tree node: `type`, `title`, optional `location`, optional
nested `suites`, optional `tests`. The traversal utilities never
inspect the tests themselves, so the test type is a parameter. -/
inductive Suite (T : Type) where
  | mk (type : SuiteKind) (title : String) (location : Option SrcLocation)
      (suites : Option (List (Suite T))) (tests : Option (List T))

/-- The `suites` field of a suite. -/
def Suite.suites {T : Type} : Suite T → Option (List (Suite T))
  | .mk _ _ _ ss _ => ss

/-- The `tests` field of a suite. -/
def Suite.tests {T : Type} : Suite T → Option (List T)
  | .mk _ _ _ _ ts => ts

/-- Models `suite.tests ?? []` and `suite.suites ?? []`. -/
def orEmpty {A : Type} (o : Option (List A)) : List A :=
  o.getD []

mutual

/-- Trace of `visitTests`' inner `visitSuite`: the suite is pushed onto
`parents` first, then its own tests are visited, then its child suites,
and the suite is popped. Each trace entry records the test and the
contents of the parents stack at the moment of the visitor call. -/
def visitSuiteTrace {T : Type} : Suite T → List (Suite T) → List (T × List (Suite T))
  | .mk ty ti lo ss ts, parents =>
      (orEmpty ts).map (fun t => (t, parents ++ [Suite.mk ty ti lo ss ts])) ++
      visitOptTrace ss (parents ++ [Suite.mk ty ti lo ss ts])

/-- Trace over an optional child-suite list (`suite.suites ?? []`). -/
def visitOptTrace {T : Type} : Option (List (Suite T)) → List (Suite T) → List (T × List (Suite T))
  | none, _ => []
  | some l, parents => visitListTrace l parents

/-- Trace over a list of sibling suites, in array order. -/
def visitListTrace {T : Type} : List (Suite T) → List (Suite T) → List (T × List (Suite T))
  | [], _ => []
  | s :: rest, parents => visitSuiteTrace s parents ++ visitListTrace rest parents

end

/-- Trace of `visitTests` over `report.suites`: every root suite starts
with an empty parents stack. -/
def visitTestsTrace {T : Type} (suites : List (Suite T)) : List (T × List (Suite T)) :=
  visitListTrace suites []

mutual

/-- Trace of `visitTestsAsync`'s inner `visitSuite`: the suite's own
tests are visited BEFORE the suite is pushed onto `parents`, so the
visitor sees the ancestors of the enclosing suite, not the enclosing
suite itself. -/
def asyncSuiteTrace {T : Type} : Suite T → List (Suite T) → List (T × List (Suite T))
  | .mk ty ti lo ss ts, parents =>
      (orEmpty ts).map (fun t => (t, parents)) ++
      asyncOptTrace ss (parents ++ [Suite.mk ty ti lo ss ts])

/-- Async trace over an optional child-suite list. -/
def asyncOptTrace {T : Type} : Option (List (Suite T)) → List (Suite T) → List (T × List (Suite T))
  | none, _ => []
  | some l, parents => asyncListTrace l parents

/-- Async trace over a list of sibling suites, in array order. -/
def asyncListTrace {T : Type} : List (Suite T) → List (Suite T) → List (T × List (Suite T))
  | [], _ => []
  | s :: rest, parents => asyncSuiteTrace s parents ++ asyncListTrace rest parents

end

/-- Trace of `visitTestsAsync` over `report.suites`. -/
def visitTestsAsyncTrace {T : Type} (suites : List (Suite T)) : List (T × List (Suite T)) :=
  asyncListTrace suites []

/-- Predicate calls made by `findTest`'s inner loop over a suite's own
tests (before the suite is pushed), together with the first match. -/
def findInTests {T : Type} (pred : T → List (Suite T) → Bool) :
    List T → List (Suite T) → List (T × List (Suite T)) × Option T
  | [], _ => ([], none)
  | t :: rest, parents =>
      if pred t parents then ([(t, parents)], some t)
      else
        match findInTests pred rest parents with
        | (calls, r) => ((t, parents) :: calls, r)

mutual

/-- Calls-and-result trace of `findTest`'s inner `visitSuite`: the
suite's own tests are tested against the predicate BEFORE the suite is
pushed onto `parents`; the search short-circuits on the first match. -/
def findSuiteCalls {T : Type} (pred : T → List (Suite T) → Bool) :
    Suite T → List (Suite T) → List (T × List (Suite T)) × Option T
  | .mk ty ti lo ss ts, parents =>
      match findInTests pred (orEmpty ts) parents with
      | (calls, some t) => (calls, some t)
      | (calls, none) =>
          match findOptCalls pred ss (parents ++ [Suite.mk ty ti lo ss ts]) with
          | (calls2, r) => (calls ++ calls2, r)

/-- Search over an optional child-suite list. -/
def findOptCalls {T : Type} (pred : T → List (Suite T) → Bool) :
    Option (List (Suite T)) → List (Suite T) → List (T × List (Suite T)) × Option T
  | none, _ => ([], none)
  | some l, parents => findListCalls pred l parents

/-- Search over a list of sibling suites, in array order, stopping at
the first suite that yields a match. -/
def findListCalls {T : Type} (pred : T → List (Suite T) → Bool) :
    List (Suite T) → List (Suite T) → List (T × List (Suite T)) × Option T
  | [], _ => ([], none)
  | s :: rest, parents =>
      match findSuiteCalls pred s parents with
      | (calls, some t) => (calls, some t)
      | (calls, none) =>
          match findListCalls pred rest parents with
          | (calls2, r) => (calls ++ calls2, r)

end

/-- Result of `findTest` over `report.suites` (first test satisfying the
predicate in traversal order, `none` when exhausted). -/
def findTest {T : Type} (pred : T → List (Suite T) → Bool) (suites : List (Suite T)) : Option T :=
  (findListCalls pred suites []).2

/-- Calls made to the predicate during `findTest`. -/
def findTestCalls {T : Type} (pred : T → List (Suite T) → Bool) (suites : List (Suite T)) :
    List (T × List (Suite T)) :=
  (findListCalls pred suites []).1

/-- Prefix of a call sequence up to and including the first entry the
predicate accepts. -/
def prefixToMatch {T : Type} (pred : T → List (Suite T) → Bool) :
    List (T × List (Suite T)) → List (T × List (Suite T))
  | [] => []
  | (t, a) :: rest => (t, a) :: (if pred t a then [] else prefixToMatch pred rest)

/-- First accepted test of a call sequence. -/
def firstMatch {T : Type} (pred : T → List (Suite T) → Bool) :
    List (T × List (Suite T)) → Option T
  | [] => none
  | (t, a) :: rest => if pred t a then some t else firstMatch pred rest

/-- Suite `B` of the traversal-order example: `tests: [t2]`. -/
def suiteB : Suite String :=
  .mk .suite "B" none none (some ["t2"])

/-- Suite `A` of the traversal-order example: `tests: [t1]`,
`suites: [B]`. -/
def suiteA : Suite String :=
  .mk .suite "A" none (some [suiteB]) (some ["t1"])

/-! ## Validators

Embeddings of the two zod validators: `schema.Report` from
`src/schema.ts` (used by `FlakinessReport.validate`) and
`Schema.Report` from `src/v1/reportV1.ts` (used by `V1.validate`).
A validator maps a JS value to the ordered list of issues zod's
`safeParse` collects; sub-schemas with identical shapes in the two
files are embedded once. -/

/-- One component of a zod issue path: an object key or array index. -/
inductive Seg where
  | key (k : String)
  | idx (i : Nat)
deriving Repr, DecidableEq

/-- A zod validation issue: path plus issue code. -/
structure Issue where
  path : List Seg
  code : String
deriving Repr, DecidableEq

/-- The single `invalid_type` issue at a path. -/
def typeIssue (p : List Seg) : List Issue :=
  [⟨p, "invalid_type"⟩]

/-- Check of `z.string().min(lo).max(hi)` (no `.max` when `hi = none`). -/
def checkStr (lo : Nat) (hi : Option Nat) (p : List Seg) (v : JValue) : List Issue :=
  match v with
  | .str s =>
      (if s.length < lo then [⟨p, "too_small"⟩] else []) ++
      (match hi with
       | some h => if h < s.length then [⟨p, "too_big"⟩] else []
       | none => [])
  | _ => typeIssue p

/-- Check of `z.number().min(lo).max(hi)` (bounds optional). -/
def checkNum (lo hi : Option Int) (p : List Seg) (v : JValue) : List Issue :=
  match v with
  | .num n =>
      (match lo with
       | some l => if n < l then [⟨p, "too_small"⟩] else []
       | none => []) ++
      (match hi with
       | some h => if h < n then [⟨p, "too_big"⟩] else []
       | none => [])
  | _ => typeIssue p

/-- Check of `z.literal(1)` (the `version` tag). -/
def checkLitOne (p : List Seg) (v : JValue) : List Issue :=
  match v with
  | .num n => if n = 1 then [] else [⟨p, "invalid_value"⟩]
  | _ => [⟨p, "invalid_value"⟩]

/-- Check of `z.enum([...])`. -/
def checkEnum (options : List String) (p : List Seg) (v : JValue) : List Issue :=
  match v with
  | .str s => if options.contains s then [] else [⟨p, "invalid_value"⟩]
  | _ => [⟨p, "invalid_value"⟩]

/-- Wrapper for `.optional()`: `undefined` (and a missing key) is
accepted without running the inner check. -/
def jopt (f : List Seg → JValue → List Issue) (p : List Seg) (v : JValue) : List Issue :=
  match v with
  | .undef => []
  | _ => f p v

/-- Element-wise check of an array's elements with running index. -/
def arrElems (f : List Seg → JValue → List Issue) (p : List Seg) :
    Nat → List JValue → List Issue
  | _, [] => []
  | i, e :: rest => f (p ++ [Seg.idx i]) e ++ arrElems f p (i + 1) rest

/-- Check of `z.array(inner)`: elements in order, `invalid_type` for a
non-array. -/
def checkArr (f : List Seg → JValue → List Issue) (p : List Seg) (v : JValue) : List Issue :=
  match v with
  | .arr es => arrElems f p 0 es
  | _ => typeIssue p

/-- Field read used by the object validators: a missing key yields
`undefined`, unknown keys are ignored (zod strips them). -/
def getF (fields : List (String × JValue)) (k : String) : JValue :=
  (jlookup fields k).getD (.undef)

/-- The five `TestStatus` literals. -/
def statusStrings : List String :=
  ["passed", "failed", "timedOut", "skipped", "interrupted"]

/-- The three `SuiteType` literals. -/
def suiteTypeStrings : List String :=
  ["file", "anonymous suite", "suite"]

/-- Check of the `Location` schema (identical in both files):
`file` a string, `line` and `column` numbers. -/
def locIssues (p : List Seg) (v : JValue) : List Issue :=
  match v with
  | .obj fs =>
      checkStr 0 none (p ++ [Seg.key "file"]) (getF fs "file") ++
      checkNum none none (p ++ [Seg.key "line"]) (getF fs "line") ++
      checkNum none none (p ++ [Seg.key "column"]) (getF fs "column")
  | _ => typeIssue p

/-- Check of the optional `systemData` object of an environment
(identical in both files): three optional strings. -/
def sysDataIssues (p : List Seg) (v : JValue) : List Issue :=
  match v with
  | .obj fs =>
      jopt (checkStr 0 none) (p ++ [Seg.key "osName"]) (getF fs "osName") ++
      jopt (checkStr 0 none) (p ++ [Seg.key "osVersion"]) (getF fs "osVersion") ++
      jopt (checkStr 0 none) (p ++ [Seg.key "osArch"]) (getF fs "osArch")
  | _ => typeIssue p

/-- Check of the `Environment` schema: `name` a 1..512 string, optional
`systemData`; the remaining declared fields are `z.any()` and check
nothing, which makes the two files' environment schemas validate
identically. -/
def envIssues (p : List Seg) (v : JValue) : List Issue :=
  match v with
  | .obj fs =>
      checkStr 1 (some 512) (p ++ [Seg.key "name"]) (getF fs "name") ++
      jopt sysDataIssues (p ++ [Seg.key "systemData"]) (getF fs "systemData")
  | _ => typeIssue p

/-- Check of the `STDIOEntry` union (identical in both files): an
object with a string `text`, or one with a string `buffer`; if neither
option matches, one `invalid_union` issue. -/
def stdioIssues (p : List Seg) (v : JValue) : List Issue :=
  let o1 := match v with
    | .obj fs => checkStr 0 none (p ++ [Seg.key "text"]) (getF fs "text")
    | _ => typeIssue p
  let o2 := match v with
    | .obj fs => checkStr 0 none (p ++ [Seg.key "buffer"]) (getF fs "buffer")
    | _ => typeIssue p
  if o1.isEmpty then [] else if o2.isEmpty then [] else [⟨p, "invalid_union"⟩]

/-- Check of the `ReportError` schema (identical in both files): all
fields optional. -/
def errIssues (p : List Seg) (v : JValue) : List Issue :=
  match v with
  | .obj fs =>
      jopt locIssues (p ++ [Seg.key "location"]) (getF fs "location") ++
      jopt (checkStr 0 none) (p ++ [Seg.key "message"]) (getF fs "message") ++
      jopt (checkStr 0 none) (p ++ [Seg.key "stack"]) (getF fs "stack") ++
      jopt (checkStr 0 none) (p ++ [Seg.key "snippet"]) (getF fs "snippet") ++
      jopt (checkStr 0 none) (p ++ [Seg.key "value"]) (getF fs "value")
  | _ => typeIssue p

/-- Check of the `Attachment` schema (identical in both files):
`name` and `contentType` strings, `id` a 1..1024 string. -/
def attachIssues (p : List Seg) (v : JValue) : List Issue :=
  match v with
  | .obj fs =>
      checkStr 0 none (p ++ [Seg.key "name"]) (getF fs "name") ++
      checkStr 0 none (p ++ [Seg.key "contentType"]) (getF fs "contentType") ++
      checkStr 1 (some 1024) (p ++ [Seg.key "id"]) (getF fs "id")
  | _ => typeIssue p

/-- Check of the `Annotation` schema (identical in both files):
`type` a string, optional `description` and `location`. -/
def annotIssues (p : List Seg) (v : JValue) : List Issue :=
  match v with
  | .obj fs =>
      checkStr 0 none (p ++ [Seg.key "type"]) (getF fs "type") ++
      jopt (checkStr 0 none) (p ++ [Seg.key "description"]) (getF fs "description") ++
      jopt locIssues (p ++ [Seg.key "location"]) (getF fs "location")
  | _ => typeIssue p

mutual

/-- Check of the recursive `TestStep` schema (identical in both files):
`title` a string, `duration` a non-negative number, optional
`location`, `snippet`, `error`, and optional nested `steps`. -/
def stepIssues (p : List Seg) (v : JValue) : List Issue :=
  match v with
  | .obj fs =>
      checkStr 0 none (p ++ [Seg.key "title"]) (getF fs "title") ++
      checkNum (some 0) none (p ++ [Seg.key "duration"]) (getF fs "duration") ++
      jopt locIssues (p ++ [Seg.key "location"]) (getF fs "location") ++
      jopt (checkStr 0 none) (p ++ [Seg.key "snippet"]) (getF fs "snippet") ++
      jopt errIssues (p ++ [Seg.key "error"]) (getF fs "error") ++
      stepsFieldSearch p fs
  | _ => typeIssue p

/-- Walk of the field list to the unique `steps` key (the object-level
lookup, kept structural for the recursion); a missing key is the
accepted `undefined` of the optional field. -/
def stepsFieldSearch (p : List Seg) (fs : List (String × JValue)) : List Issue :=
  match fs with
  | [] => []
  | (k, v) :: rest =>
      if k = "steps" then stepsValIssues (p ++ [Seg.key "steps"]) v
      else stepsFieldSearch p rest

/-- Check of the optional `steps` array value. -/
def stepsValIssues (p : List Seg) (v : JValue) : List Issue :=
  match v with
  | .undef => []
  | .arr es => stepListIssues p 0 es
  | _ => typeIssue p

/-- Element-wise check of a `steps` array. -/
def stepListIssues (p : List Seg) (i : Nat) (es : List JValue) : List Issue :=
  match es with
  | [] => []
  | e :: rest => stepIssues (p ++ [Seg.idx i]) e ++ stepListIssues p (i + 1) rest

end

/-- Check of `Schema.RunAttempt` from `src/v1/reportV1.ts`:
`environmentIdx` a number `.min(0)`, statuses from the enum,
`startTimestamp`/`duration` non-negative, optional `timeout`
non-negative, optional `annotations`/`errors` arrays, optional
`parallelIndex` a plain number WITHOUT a `.min(0)` bound, optional
`steps`, `stdout`, `stderr`, `attachments`. -/
def v1AttemptIssues (p : List Seg) (v : JValue) : List Issue :=
  match v with
  | .obj fs =>
      checkNum (some 0) none (p ++ [Seg.key "environmentIdx"]) (getF fs "environmentIdx") ++
      checkEnum statusStrings (p ++ [Seg.key "expectedStatus"]) (getF fs "expectedStatus") ++
      checkEnum statusStrings (p ++ [Seg.key "status"]) (getF fs "status") ++
      checkNum (some 0) none (p ++ [Seg.key "startTimestamp"]) (getF fs "startTimestamp") ++
      checkNum (some 0) none (p ++ [Seg.key "duration"]) (getF fs "duration") ++
      jopt (checkNum (some 0) none) (p ++ [Seg.key "timeout"]) (getF fs "timeout") ++
      jopt (checkArr annotIssues) (p ++ [Seg.key "annotations"]) (getF fs "annotations") ++
      jopt (checkArr errIssues) (p ++ [Seg.key "errors"]) (getF fs "errors") ++
      jopt (checkNum none none) (p ++ [Seg.key "parallelIndex"]) (getF fs "parallelIndex") ++
      jopt stepsValIssues (p ++ [Seg.key "steps"]) (getF fs "steps") ++
      jopt (checkArr stdioIssues) (p ++ [Seg.key "stdout"]) (getF fs "stdout") ++
      jopt (checkArr stdioIssues) (p ++ [Seg.key "stderr"]) (getF fs "stderr") ++
      jopt (checkArr attachIssues) (p ++ [Seg.key "attachments"]) (getF fs "attachments")
  | _ => typeIssue p

/-- Check of `Schema.Test` from `src/v1/reportV1.ts`: `title` a string,
OPTIONAL `location`, optional `tags`, required `attempts` array. -/
def v1TestIssues (p : List Seg) (v : JValue) : List Issue :=
  match v with
  | .obj fs =>
      checkStr 0 none (p ++ [Seg.key "title"]) (getF fs "title") ++
      jopt locIssues (p ++ [Seg.key "location"]) (getF fs "location") ++
      jopt (checkArr (checkStr 0 none)) (p ++ [Seg.key "tags"]) (getF fs "tags") ++
      checkArr v1AttemptIssues (p ++ [Seg.key "attempts"]) (getF fs "attempts")
  | _ => typeIssue p

mutual

/-- Check of the recursive `Schema.Suite` from `src/v1/reportV1.ts`:
`type` from the enum, `title` a string, OPTIONAL `location`, optional
nested `suites`, optional `tests`. -/
def v1SuiteIssues (p : List Seg) (v : JValue) : List Issue :=
  match v with
  | .obj fs =>
      checkEnum suiteTypeStrings (p ++ [Seg.key "type"]) (getF fs "type") ++
      checkStr 0 none (p ++ [Seg.key "title"]) (getF fs "title") ++
      jopt locIssues (p ++ [Seg.key "location"]) (getF fs "location") ++
      v1SuitesFieldSearch p fs ++
      jopt (checkArr v1TestIssues) (p ++ [Seg.key "tests"]) (getF fs "tests")
  | _ => typeIssue p

/-- Walk of the field list to the unique `suites` key. -/
def v1SuitesFieldSearch (p : List Seg) (fs : List (String × JValue)) : List Issue :=
  match fs with
  | [] => []
  | (k, v) :: rest =>
      if k = "suites" then v1SuitesValIssues (p ++ [Seg.key "suites"]) v
      else v1SuitesFieldSearch p rest

/-- Check of the optional nested `suites` array value. -/
def v1SuitesValIssues (p : List Seg) (v : JValue) : List Issue :=
  match v with
  | .undef => []
  | .arr es => v1SuiteListIssues p 0 es
  | _ => typeIssue p

/-- Element-wise check of a `suites` array. -/
def v1SuiteListIssues (p : List Seg) (i : Nat) (es : List JValue) : List Issue :=
  match es with
  | [] => []
  | e :: rest => v1SuiteIssues (p ++ [Seg.idx i]) e ++ v1SuiteListIssues p (i + 1) rest

end

/-- Check of the `SystemUtilizationSample` schema (identical in both
files): `dts` non-negative, `cpuUtilization` and `memoryUtilization`
in `[0, 100]`. -/
def sampleIssues (p : List Seg) (v : JValue) : List Issue :=
  match v with
  | .obj fs =>
      checkNum (some 0) none (p ++ [Seg.key "dts"]) (getF fs "dts") ++
      checkNum (some 0) (some 100) (p ++ [Seg.key "cpuUtilization"]) (getF fs "cpuUtilization") ++
      checkNum (some 0) (some 100) (p ++ [Seg.key "memoryUtilization"])
        (getF fs "memoryUtilization")
  | _ => typeIssue p

/-- Check of the `SystemUtilization` schema (identical in both files). -/
def sysUtilIssues (p : List Seg) (v : JValue) : List Issue :=
  match v with
  | .obj fs =>
      checkNum (some 0) none (p ++ [Seg.key "totalMemoryBytes"]) (getF fs "totalMemoryBytes") ++
      checkNum (some 0) none (p ++ [Seg.key "startTimestamp"]) (getF fs "startTimestamp") ++
      checkArr sampleIssues (p ++ [Seg.key "samples"]) (getF fs "samples")
  | _ => typeIssue p

/-- Check of `Schema.UtilizationTelemetry` from `src/v1/reportV1.ts`:
`z.tuple([DurationMS, z.number().min(0).max(100)])`. -/
def telemIssues (p : List Seg) (v : JValue) : List Issue :=
  match v with
  | .arr [a, b] =>
      checkNum (some 0) none (p ++ [Seg.idx 0]) a ++
      checkNum (some 0) (some 100) (p ++ [Seg.idx 1]) b
  | .arr es => [⟨p, if es.length < 2 then "too_small" else "too_big"⟩]
  | _ => typeIssue p

/-- Check of a REQUIRED array of suites (`suites: z.array(Suite)` at
the report root): a missing key is an `invalid_type` issue. -/
def v1SuitesReqIssues (p : List Seg) (v : JValue) : List Issue :=
  match v with
  | .arr es => v1SuiteListIssues p 0 es
  | _ => typeIssue p

/-- Check of `Schema.Report` from `src/v1/reportV1.ts`, field by field
in shape order. -/
def v1ReportIssues (v : JValue) : List Issue :=
  match v with
  | .obj fs =>
      checkStr 1 (some 100) [Seg.key "category"] (getF fs "category") ++
      checkLitOne [Seg.key "version"] (getF fs "version") ++
      checkStr 40 (some 40) [Seg.key "commitId"] (getF fs "commitId") ++
      jopt (checkArr (checkStr 40 (some 40))) [Seg.key "relatedCommitIds"]
        (getF fs "relatedCommitIds") ++
      jopt (checkStr 0 none) [Seg.key "configPath"] (getF fs "configPath") ++
      jopt (checkStr 0 none) [Seg.key "url"] (getF fs "url") ++
      checkArr envIssues [Seg.key "environments"] (getF fs "environments") ++
      v1SuitesReqIssues [Seg.key "suites"] (getF fs "suites") ++
      jopt (checkArr v1TestIssues) [Seg.key "tests"] (getF fs "tests") ++
      jopt (checkArr errIssues) [Seg.key "unattributedErrors"] (getF fs "unattributedErrors") ++
      checkNum (some 0) none [Seg.key "startTimestamp"] (getF fs "startTimestamp") ++
      checkNum (some 0) none [Seg.key "duration"] (getF fs "duration") ++
      jopt sysUtilIssues [Seg.key "systemUtilization"] (getF fs "systemUtilization") ++
      jopt (checkNum (some 0) none) [Seg.key "cpuCount"] (getF fs "cpuCount") ++
      jopt (checkArr telemIssues) [Seg.key "cpuAvg"] (getF fs "cpuAvg") ++
      jopt (checkArr telemIssues) [Seg.key "cpuMax"] (getF fs "cpuMax") ++
      jopt (checkArr telemIssues) [Seg.key "ram"] (getF fs "ram") ++
      jopt (checkNum (some 0) none) [Seg.key "ramBytes"] (getF fs "ramBytes")
  | _ => typeIssue []

/-- Embedding of `V1.validate` from `src/v1/reportV1.ts`: `undefined`
on success; on failure the first `MAX_ISSUES = 5` issues
(`allIssues.slice(0, 5)`) plus, when more remain, the literal
"... and N more issue(s) ..." line. The string rendering of the shown
issues themselves (`z.prettifyError`) is abstracted to the issue
list. -/
def V1validate (report : JValue) : Option (List Issue × Option String) :=
  let allIssues := v1ReportIssues report
  if allIssues.isEmpty then none
  else
    let shownIssues := allIssues.take 5
    let remaining := allIssues.length - shownIssues.length
    some (shownIssues,
      if 0 < remaining then
        some ("... and " ++ toString remaining ++ " more issue" ++
          (if remaining = 1 then "" else "s") ++ " ...")
      else none)

/-- Check of `schema.RunAttempt` from `src/schema.ts`, field by field
in its shape order; unlike the v1 schema, `annotations` is a REQUIRED
array here, and `parallelIndex` is again a plain number without a
`.min(0)` bound. -/
def zsAttemptIssues (p : List Seg) (v : JValue) : List Issue :=
  match v with
  | .obj fs =>
      jopt (checkNum (some 0) none) (p ++ [Seg.key "timeout"]) (getF fs "timeout") ++
      checkArr annotIssues (p ++ [Seg.key "annotations"]) (getF fs "annotations") ++
      checkEnum statusStrings (p ++ [Seg.key "expectedStatus"]) (getF fs "expectedStatus") ++
      checkNum (some 0) none (p ++ [Seg.key "environmentIdx"]) (getF fs "environmentIdx") ++
      checkEnum statusStrings (p ++ [Seg.key "status"]) (getF fs "status") ++
      checkNum (some 0) none (p ++ [Seg.key "startTimestamp"]) (getF fs "startTimestamp") ++
      checkNum (some 0) none (p ++ [Seg.key "duration"]) (getF fs "duration") ++
      jopt (checkArr errIssues) (p ++ [Seg.key "errors"]) (getF fs "errors") ++
      jopt (checkNum none none) (p ++ [Seg.key "parallelIndex"]) (getF fs "parallelIndex") ++
      jopt stepsValIssues (p ++ [Seg.key "steps"]) (getF fs "steps") ++
      jopt (checkArr stdioIssues) (p ++ [Seg.key "stdout"]) (getF fs "stdout") ++
      jopt (checkArr stdioIssues) (p ++ [Seg.key "stderr"]) (getF fs "stderr") ++
      jopt (checkArr attachIssues) (p ++ [Seg.key "attachments"]) (getF fs "attachments")
  | _ => typeIssue p

/-- Check of `schema.Test` from `src/schema.ts`: `title` a string,
REQUIRED `location`, optional `tags`, required `attempts` array. -/
def zsTestIssues (p : List Seg) (v : JValue) : List Issue :=
  match v with
  | .obj fs =>
      checkStr 0 none (p ++ [Seg.key "title"]) (getF fs "title") ++
      locIssues (p ++ [Seg.key "location"]) (getF fs "location") ++
      jopt (checkArr (checkStr 0 none)) (p ++ [Seg.key "tags"]) (getF fs "tags") ++
      checkArr zsAttemptIssues (p ++ [Seg.key "attempts"]) (getF fs "attempts")
  | _ => typeIssue p

mutual

/-- Check of the recursive `schema.Suite` from `src/schema.ts`:
`type` from the enum, `title` a string, REQUIRED `location`, optional
nested `suites`, optional `tests`. -/
def zsSuiteIssues (p : List Seg) (v : JValue) : List Issue :=
  match v with
  | .obj fs =>
      checkEnum suiteTypeStrings (p ++ [Seg.key "type"]) (getF fs "type") ++
      checkStr 0 none (p ++ [Seg.key "title"]) (getF fs "title") ++
      locIssues (p ++ [Seg.key "location"]) (getF fs "location") ++
      zsSuitesFieldSearch p fs ++
      jopt (checkArr zsTestIssues) (p ++ [Seg.key "tests"]) (getF fs "tests")
  | _ => typeIssue p

/-- Walk of the field list to the unique `suites` key. -/
def zsSuitesFieldSearch (p : List Seg) (fs : List (String × JValue)) : List Issue :=
  match fs with
  | [] => []
  | (k, v) :: rest =>
      if k = "suites" then zsSuitesValIssues (p ++ [Seg.key "suites"]) v
      else zsSuitesFieldSearch p rest

/-- Check of the optional nested `suites` array value. -/
def zsSuitesValIssues (p : List Seg) (v : JValue) : List Issue :=
  match v with
  | .undef => []
  | .arr es => zsSuiteListIssues p 0 es
  | _ => typeIssue p

/-- Element-wise check of a `suites` array. -/
def zsSuiteListIssues (p : List Seg) (i : Nat) (es : List JValue) : List Issue :=
  match es with
  | [] => []
  | e :: rest => zsSuiteIssues (p ++ [Seg.idx i]) e ++ zsSuiteListIssues p (i + 1) rest

end

/-- Check of a REQUIRED array of suites at the report root of
`src/schema.ts`. -/
def zsSuitesReqIssues (p : List Seg) (v : JValue) : List Issue :=
  match v with
  | .arr es => zsSuiteListIssues p 0 es
  | _ => typeIssue p

/-- Check of `schema.Report` from `src/schema.ts`, field by field in
shape order: no `version` tag, no root-level `tests` field,
REQUIRED `unattributedErrors` array, `opaqueData` a no-check `z.any()`,
and no telemetry fields beyond the optional `systemUtilization`. -/
def zsReportIssues (v : JValue) : List Issue :=
  match v with
  | .obj fs =>
      checkStr 1 (some 100) [Seg.key "category"] (getF fs "category") ++
      checkStr 40 (some 40) [Seg.key "commitId"] (getF fs "commitId") ++
      jopt (checkArr (checkStr 40 (some 40))) [Seg.key "relatedCommitIds"]
        (getF fs "relatedCommitIds") ++
      jopt (checkStr 0 none) [Seg.key "configPath"] (getF fs "configPath") ++
      jopt (checkStr 0 none) [Seg.key "url"] (getF fs "url") ++
      checkArr envIssues [Seg.key "environments"] (getF fs "environments") ++
      zsSuitesReqIssues [Seg.key "suites"] (getF fs "suites") ++
      checkArr errIssues [Seg.key "unattributedErrors"] (getF fs "unattributedErrors") ++
      checkNum (some 0) none [Seg.key "startTimestamp"] (getF fs "startTimestamp") ++
      checkNum (some 0) none [Seg.key "duration"] (getF fs "duration") ++
      jopt sysUtilIssues [Seg.key "systemUtilization"] (getF fs "systemUtilization")
  | _ => typeIssue []

/-- Embedding of `FlakinessReport.validate` from
`src/flakinessReport.ts`: `schema.Report.safeParse` followed by
`z.prettifyError` on failure, abstracted to the issue list
(`undefined`, i.e. `none`, on success). -/
def FRvalidate (report : JValue) : Option (List Issue) :=
  let issues := zsReportIssues report
  if issues.isEmpty then none else some issues

/-- A 40-character commit id. -/
def commit40 : String :=
  "0123456789abcdef0123456789abcdef01234567"

/-- The single run attempt of the validation-acceptance example:
`environmentIdx: 0, expectedStatus: "passed", status: "passed",
startTimestamp: 1703001600000, duration: 1500`. -/
def acceptAttempt : JValue :=
  .obj [("environmentIdx", .num 0), ("expectedStatus", .str "passed"),
    ("status", .str "passed"), ("startTimestamp", .num 1703001600000),
    ("duration", .num 1500)]

/-- The validation-acceptance example document of the specification:
`category: "pytest"`, a 40-char `commitId`, one environment named
"Python Tests", empty `suites`, one root-level test `t` with one
attempt, `startTimestamp` and `duration`. -/
def acceptDoc : JValue :=
  .obj [("category", .str "pytest"), ("commitId", .str commit40),
    ("environments", .arr [.obj [("name", .str "Python Tests")]]),
    ("suites", .arr []),
    ("tests", .arr [.obj [("title", .str "t"), ("attempts", .arr [acceptAttempt])]]),
    ("startTimestamp", .num 1703001600000), ("duration", .num 2000)]

/-- The acceptance example document extended with the
`unattributedErrors: []` field that `schema.Report` requires. -/
def acceptDocFixed : JValue :=
  .obj [("category", .str "pytest"), ("commitId", .str commit40),
    ("environments", .arr [.obj [("name", .str "Python Tests")]]),
    ("suites", .arr []),
    ("tests", .arr [.obj [("title", .str "t"), ("attempts", .arr [acceptAttempt])]]),
    ("startTimestamp", .num 1703001600000), ("duration", .num 2000),
    ("unattributedErrors", .arr [])]


/-- A document with exactly 8 independent violations: empty `category`,
wrong `version` literal, 5-char `commitId`, empty environment name,
negative `startTimestamp`, `duration`, `cpuCount` and `ramBytes`. -/
def capDoc : JValue :=
  .obj [("category", .str ""), ("version", .num 2), ("commitId", .str "short"),
    ("environments", .arr [.obj [("name", .str "")]]),
    ("suites", .arr []),
    ("startTimestamp", .num (-1)), ("duration", .num (-1)),
    ("cpuCount", .num (-1)), ("ramBytes", .num (-5))]

/-- A run attempt that is valid except for `parallelIndex: -1`. -/
def parAttempt : JValue :=
  .obj [("environmentIdx", .num 0), ("expectedStatus", .str "passed"),
    ("status", .str "passed"), ("startTimestamp", .num 1703001600000),
    ("duration", .num 1500), ("parallelIndex", .num (-1))]

/-- A fully valid v1 report whose single attempt carries
`parallelIndex: -1`. -/
def parDoc : JValue :=
  .obj [("category", .str "pytest"), ("version", .num 1), ("commitId", .str commit40),
    ("environments", .arr [.obj [("name", .str "Python Tests")]]),
    ("suites", .arr []),
    ("tests", .arr [.obj [("title", .str "t"), ("attempts", .arr [parAttempt])]]),
    ("startTimestamp", .num 1703001600000), ("duration", .num 2000)]

/-! Specification-side bounds predicate for the bounds the validator is
claimed to enforce (everything of the claim except the `parallelIndex`
bound, which the schemas do not declare): `commitId` length exactly 40,
`category` length 1..100, environment names 1..512, attachment ids
1..1024, percent-typed fields in `[0, 100]`, timestamps and durations
non-negative, `environmentIdx` non-negative. The predicate guards each
bound by the field's expected primitive type; the validator's separate
type checking makes the guards moot on accepted documents. -/

/-- Bound: a string field's length lies in `[lo, hi]`. -/
def strLenOk (lo hi : Nat) (v : JValue) : Bool :=
  match v with
  | .str s => decide (lo ≤ s.length) && decide (s.length ≤ hi)
  | _ => true

/-- Bound: a numeric field is non-negative. -/
def numGe0 (v : JValue) : Bool :=
  match v with
  | .num n => decide (0 ≤ n)
  | _ => true

/-- Bound: a percent-typed numeric field lies in `[0, 100]`. -/
def pctOk (v : JValue) : Bool :=
  match v with
  | .num n => decide (0 ≤ n) && decide (n ≤ 100)
  | _ => true

/-- All elements of an array field satisfy a bound. -/
def arrAllOk (f : JValue → Bool) (v : JValue) : Bool :=
  match v with
  | .arr es => es.all f
  | _ => true

mutual

/-- Bounds inside a test step: non-negative `duration`, nested steps. -/
def stepBoundsOk (v : JValue) : Bool :=
  match v with
  | .obj fs => numGe0 (getF fs "duration") && stepsFieldBoundsOk fs
  | _ => true

/-- Walk of the field list to the unique `steps` key. -/
def stepsFieldBoundsOk (fs : List (String × JValue)) : Bool :=
  match fs with
  | [] => true
  | (k, v) :: rest =>
      if k = "steps" then stepsValBoundsOk v else stepsFieldBoundsOk rest

/-- Bounds inside an optional `steps` array value. -/
def stepsValBoundsOk (v : JValue) : Bool :=
  match v with
  | .arr es => stepListBoundsOk es
  | _ => true

/-- Bounds inside each element of a `steps` array. -/
def stepListBoundsOk (es : List JValue) : Bool :=
  match es with
  | [] => true
  | e :: rest => stepBoundsOk e && stepListBoundsOk rest

end

/-- Bounds inside an attachment: id length 1..1024. -/
def attachBoundsOk (v : JValue) : Bool :=
  match v with
  | .obj fs => strLenOk 1 1024 (getF fs "id")
  | _ => true

/-- Bounds inside a run attempt: non-negative `environmentIdx`,
`startTimestamp`, `duration` and `timeout`, recursively bounded
`steps`, bounded attachment ids. -/
def attemptBoundsOk (v : JValue) : Bool :=
  match v with
  | .obj fs =>
      numGe0 (getF fs "environmentIdx") &&
      numGe0 (getF fs "startTimestamp") &&
      numGe0 (getF fs "duration") &&
      numGe0 (getF fs "timeout") &&
      stepsValBoundsOk (getF fs "steps") &&
      arrAllOk attachBoundsOk (getF fs "attachments")
  | _ => true

/-- Bounds inside a test: every attempt bounded. -/
def testBoundsOk (v : JValue) : Bool :=
  match v with
  | .obj fs => arrAllOk attemptBoundsOk (getF fs "attempts")
  | _ => true

mutual

/-- Bounds inside a suite: its tests' attempts and its nested suites. -/
def suiteBoundsOk (v : JValue) : Bool :=
  match v with
  | .obj fs => suitesFieldBoundsOk fs && arrAllOk testBoundsOk (getF fs "tests")
  | _ => true

/-- Walk of the field list to the unique `suites` key. -/
def suitesFieldBoundsOk (fs : List (String × JValue)) : Bool :=
  match fs with
  | [] => true
  | (k, v) :: rest =>
      if k = "suites" then suitesValBoundsOk v else suitesFieldBoundsOk rest

/-- Bounds inside a `suites` array value. -/
def suitesValBoundsOk (v : JValue) : Bool :=
  match v with
  | .arr es => suiteListBoundsOk es
  | _ => true

/-- Bounds inside each element of a `suites` array. -/
def suiteListBoundsOk (es : List JValue) : Bool :=
  match es with
  | [] => true
  | e :: rest => suiteBoundsOk e && suiteListBoundsOk rest

end

/-- Bounds inside an environment: name length 1..512. -/
def envBoundsOk (v : JValue) : Bool :=
  match v with
  | .obj fs => strLenOk 1 512 (getF fs "name")
  | _ => true

/-- Bounds inside a telemetry tuple: non-negative time field, percent
value in `[0, 100]`. -/
def telemBoundsOk (v : JValue) : Bool :=
  match v with
  | .arr [a, b] => numGe0 a && pctOk b
  | _ => true

/-- Bounds inside a system-utilization sample. -/
def sampleBoundsOk (v : JValue) : Bool :=
  match v with
  | .obj fs =>
      numGe0 (getF fs "dts") && pctOk (getF fs "cpuUtilization") &&
      pctOk (getF fs "memoryUtilization")
  | _ => true

/-- Bounds inside the optional `systemUtilization` object. -/
def sysUtilBoundsOk (v : JValue) : Bool :=
  match v with
  | .obj fs =>
      numGe0 (getF fs "startTimestamp") && arrAllOk sampleBoundsOk (getF fs "samples")
  | _ => true

/-- The claimed bounds over a whole report document (minus the
unenforced `parallelIndex` bound). -/
def reportBoundsOk (v : JValue) : Bool :=
  match v with
  | .obj fs =>
      strLenOk 1 100 (getF fs "category") &&
      strLenOk 40 40 (getF fs "commitId") &&
      numGe0 (getF fs "startTimestamp") &&
      numGe0 (getF fs "duration") &&
      arrAllOk envBoundsOk (getF fs "environments") &&
      suitesValBoundsOk (getF fs "suites") &&
      arrAllOk testBoundsOk (getF fs "tests") &&
      sysUtilBoundsOk (getF fs "systemUtilization") &&
      arrAllOk telemBoundsOk (getF fs "cpuAvg") &&
      arrAllOk telemBoundsOk (getF fs "cpuMax") &&
      arrAllOk telemBoundsOk (getF fs "ram")
  | _ => true


/-! ## Typed model of `V0.Report`

A typed model of the version-0 report shape (`src/v0/reportV0.ts`)
together with its JSON encoding, used to state the migration claims
over every well-typed legacy document. Optional fields are omitted from
the encoded object when absent, as in a document read from
`report.json`. The `opaqueData` fields are named `oData` in the Lean
structures (the JS key is used by the encoders). -/

/-- Value of a metadata entry (`string | boolean | number`). -/
inductive MetaVal where
  | s (v : String)
  | b (v : Bool)
  | n (v : Int)

/-- JS value of a metadata entry. -/
def MetaVal.toJ : MetaVal → JValue
  | .s v => .str v
  | .b v => .boolv v
  | .n v => .num v

/-- One optional field of an encoded object: omitted when absent. -/
def optField {A : Type} (k : String) (enc : A → JValue) : Option A → List (String × JValue)
  | none => []
  | some x => [(k, enc x)]

/-- Encoding of a `Location`. -/
def encodeLoc (l : SrcLocation) : JValue :=
  .obj [("file", .str l.file), ("line", .num l.line), ("column", .num l.column)]

/-- The literal of a `SuiteType`. -/
def SuiteKind.toJ : SuiteKind → JValue
  | .file => .str "file"
  | .anonymousSuite => .str "anonymous suite"
  | .suite => .str "suite"

/-- A `TestStatus` literal. -/
inductive V0Status where
  | passed
  | failed
  | timedOut
  | skipped
  | interrupted

/-- The literal of a `TestStatus`. -/
def V0Status.toJ : V0Status → JValue
  | .passed => .str "passed"
  | .failed => .str "failed"
  | .timedOut => .str "timedOut"
  | .skipped => .str "skipped"
  | .interrupted => .str "interrupted"

/-- Typed `V0.Environment`: `name`, optional `systemData` (osName,
osVersion, osArch), optional `userSuppliedData` record, optional
`opaqueData`. -/
structure V0Environment where
  name : String
  systemData : Option (Option String × Option String × Option String)
  userSuppliedData : Option (List (String × MetaVal))
  oData : Option JValue

/-- Encoding of an environment's `systemData`. -/
def encodeSysData : Option String × Option String × Option String → JValue
  | (n, v, a) =>
      .obj (optField "osName" .str n ++ optField "osVersion" .str v ++
        optField "osArch" .str a)

/-- Encoding of a `userSuppliedData` record. -/
def encodeMeta (m : List (String × MetaVal)) : JValue :=
  .obj (m.map (fun kv => (kv.1, kv.2.toJ)))

/-- Encoding of a `V0.Environment`, fields in declaration order. -/
def encodeV0Env (e : V0Environment) : JValue :=
  .obj ([("name", .str e.name)] ++
    optField "systemData" encodeSysData e.systemData ++
    optField "userSuppliedData" encodeMeta e.userSuppliedData ++
    optField "opaqueData" id e.oData)

/-- Typed `V0.ReportError`. -/
structure V0ReportError where
  location : Option SrcLocation
  message : Option String
  stack : Option String
  snippet : Option String
  value : Option String

/-- Encoding of a `V0.ReportError`. -/
def encodeV0Err (e : V0ReportError) : JValue :=
  .obj (optField "location" encodeLoc e.location ++
    optField "message" .str e.message ++
    optField "stack" .str e.stack ++
    optField "snippet" .str e.snippet ++
    optField "value" .str e.value)

/-- Typed `V0.Annotation`. -/
structure V0Annot where
  type : String
  description : Option String
  location : Option SrcLocation

/-- Encoding of a `V0.Annotation`. -/
def encodeV0Annot (a : V0Annot) : JValue :=
  .obj ([("type", .str a.type)] ++
    optField "description" .str a.description ++
    optField "location" encodeLoc a.location)

/-- Typed `V0.Attachment`. -/
structure V0Attachment where
  name : String
  contentType : String
  id : String

/-- Encoding of a `V0.Attachment`. -/
def encodeV0Attach (a : V0Attachment) : JValue :=
  .obj [("name", .str a.name), ("contentType", .str a.contentType), ("id", .str a.id)]

/-- Typed `V0.STDIOEntry`. -/
inductive V0Stdio where
  | text (s : String)
  | buffer (s : String)

/-- Encoding of a `V0.STDIOEntry`. -/
def encodeV0Stdio : V0Stdio → JValue
  | .text s => .obj [("text", .str s)]
  | .buffer s => .obj [("buffer", .str s)]

/-- Typed recursive `V0.TestStep`. -/
inductive V0TestStep where
  | mk (title : String) (duration : Int) (location : Option SrcLocation)
      (snippet : Option String) (error : Option V0ReportError)
      (steps : Option (List V0TestStep))

mutual

/-- Encoding of a `V0.TestStep`. -/
def encodeV0Step : V0TestStep → JValue
  | .mk title duration location snippet error steps =>
      .obj ([("title", .str title), ("duration", .num duration)] ++
        optField "location" encodeLoc location ++
        optField "snippet" .str snippet ++
        optField "error" encodeV0Err error ++
        encodeV0StepsOpt steps)

/-- Encoding of an optional nested `steps` field. -/
def encodeV0StepsOpt : Option (List V0TestStep) → List (String × JValue)
  | none => []
  | some l => [("steps", .arr (encodeV0StepList l))]

/-- Encoding of a list of steps. -/
def encodeV0StepList : List V0TestStep → List JValue
  | [] => []
  | s :: rest => encodeV0Step s :: encodeV0StepList rest

end

/-- Typed `V0.RunAttempt`. -/
structure V0RunAttempt where
  environmentIdx : Int
  expectedStatus : V0Status
  status : V0Status
  startTimestamp : Int
  duration : Int
  timeout : Option Int
  annotations : Option (List V0Annot)
  errors : Option (List V0ReportError)
  parallelIndex : Option Int
  steps : Option (List V0TestStep)
  stdout : Option (List V0Stdio)
  stderr : Option (List V0Stdio)
  attachments : Option (List V0Attachment)

/-- Encoding of a `V0.RunAttempt`, fields in declaration order. -/
def encodeV0Attempt (a : V0RunAttempt) : JValue :=
  .obj ([("environmentIdx", .num a.environmentIdx),
    ("expectedStatus", a.expectedStatus.toJ), ("status", a.status.toJ),
    ("startTimestamp", .num a.startTimestamp), ("duration", .num a.duration)] ++
    optField "timeout" .num a.timeout ++
    optField "annotations" (fun l => .arr (l.map encodeV0Annot)) a.annotations ++
    optField "errors" (fun l => .arr (l.map encodeV0Err)) a.errors ++
    optField "parallelIndex" .num a.parallelIndex ++
    optField "steps" (fun l => .arr (encodeV0StepList l)) a.steps ++
    optField "stdout" (fun l => .arr (l.map encodeV0Stdio)) a.stdout ++
    optField "stderr" (fun l => .arr (l.map encodeV0Stdio)) a.stderr ++
    optField "attachments" (fun l => .arr (l.map encodeV0Attach)) a.attachments)

/-- Typed `V0.Test`. -/
structure V0Test where
  title : String
  location : Option SrcLocation
  tags : Option (List String)
  attempts : List V0RunAttempt

/-- Encoding of a `V0.Test`. -/
def encodeV0Test (t : V0Test) : JValue :=
  .obj ([("title", .str t.title)] ++
    optField "location" encodeLoc t.location ++
    optField "tags" (fun l => .arr (l.map .str)) t.tags ++
    [("attempts", .arr (t.attempts.map encodeV0Attempt))])

/-- Typed recursive `V0.Suite`. -/
inductive V0Suite where
  | mk (type : SuiteKind) (title : String) (location : Option SrcLocation)
      (suites : Option (List V0Suite)) (tests : Option (List V0Test))

mutual

/-- Encoding of a `V0.Suite`. -/
def encodeV0Suite : V0Suite → JValue
  | .mk ty title location suites tests =>
      .obj ([("type", ty.toJ), ("title", .str title)] ++
        optField "location" encodeLoc location ++
        encodeV0SuitesOpt suites ++
        optField "tests" (fun l => .arr (l.map encodeV0Test)) tests)

/-- Encoding of an optional nested `suites` field. -/
def encodeV0SuitesOpt : Option (List V0Suite) → List (String × JValue)
  | none => []
  | some l => [("suites", .arr (encodeV0SuiteList l))]

/-- Encoding of a list of suites. -/
def encodeV0SuiteList : List V0Suite → List JValue
  | [] => []
  | s :: rest => encodeV0Suite s :: encodeV0SuiteList rest

end

/-- Typed `V0.SystemUtilization`. -/
structure V0SysUtil where
  totalMemoryBytes : Int
  startTimestamp : Int
  samples : List (Int × Int × Int)

/-- Encoding of a utilization sample (`dts`, `cpuUtilization`,
`memoryUtilization`). -/
def encodeV0Sample : Int × Int × Int → JValue
  | (dts, cpu, mem) =>
      .obj [("dts", .num dts), ("cpuUtilization", .num cpu),
        ("memoryUtilization", .num mem)]

/-- Encoding of a `V0.SystemUtilization`. -/
def encodeV0SysUtil (s : V0SysUtil) : JValue :=
  .obj [("totalMemoryBytes", .num s.totalMemoryBytes),
    ("startTimestamp", .num s.startTimestamp),
    ("samples", .arr (s.samples.map encodeV0Sample))]

/-- Typed `V0.Report`. The `version` field of the interface can only be
`undefined` and is omitted. -/
structure V0Report where
  category : String
  commitId : String
  relatedCommitIds : Option (List String)
  configPath : Option String
  url : Option String
  environments : List V0Environment
  suites : List V0Suite
  tests : Option (List V0Test)
  unattributedErrors : Option (List V0ReportError)
  startTimestamp : Int
  duration : Int
  oData : Option JValue
  systemUtilization : Option V0SysUtil

/-- Field list of an encoded `V0.Report`, fields in declaration
order. -/
def encodeV0ReportFields (r : V0Report) : List (String × JValue) :=
  [("category", .str r.category), ("commitId", .str r.commitId)] ++
  optField "relatedCommitIds" (fun l => .arr (l.map .str)) r.relatedCommitIds ++
  optField "configPath" .str r.configPath ++
  optField "url" .str r.url ++
  [("environments", .arr (r.environments.map encodeV0Env)),
   ("suites", .arr (encodeV0SuiteList r.suites))] ++
  optField "tests" (fun l => .arr (l.map encodeV0Test)) r.tests ++
  optField "unattributedErrors" (fun l => .arr (l.map encodeV0Err)) r.unattributedErrors ++
  [("startTimestamp", .num r.startTimestamp), ("duration", .num r.duration)] ++
  optField "opaqueData" id r.oData ++
  optField "systemUtilization" encodeV0SysUtil r.systemUtilization

/-- Encoding of a `V0.Report`. -/
def encodeV0Report (r : V0Report) : JValue :=
  .obj (encodeV0ReportFields r)

/-- The environment shape the migration is expected to produce for a
legacy environment (stated from the field-relocation rule): the
original fields minus `opaqueData`, with `userSuppliedData` re-assigned
to `undefined` in place and `metadata` appended holding the original
`userSuppliedData` record (or `undefined` when there was none). -/
def migratedEnvJ (e : V0Environment) : JValue :=
  .obj ([("name", .str e.name)] ++
    optField "systemData" encodeSysData e.systemData ++
    [("userSuppliedData", .undef),
     ("metadata", (e.userSuppliedData.map encodeMeta).getD .undef)])

/-- The encoded environment after the migration's `delete
env.opaqueData` loop. -/
def encodeV0EnvClean (e : V0Environment) : JValue :=
  .obj ([("name", .str e.name)] ++
    optField "systemData" encodeSysData e.systemData ++
    optField "userSuppliedData" encodeMeta e.userSuppliedData)

/-- Leading fields of an encoded `V0.Report`: everything before the
optional `opaqueData` and `systemUtilization` chunks. -/
def v0FieldsA (r : V0Report) : List (String × JValue) :=
  [("category", .str r.category), ("commitId", .str r.commitId)] ++
  optField "relatedCommitIds" (fun l => .arr (l.map .str)) r.relatedCommitIds ++
  optField "configPath" .str r.configPath ++
  optField "url" .str r.url ++
  [("environments", .arr (r.environments.map encodeV0Env)),
   ("suites", .arr (encodeV0SuiteList r.suites))] ++
  optField "tests" (fun l => .arr (l.map encodeV0Test)) r.tests ++
  optField "unattributedErrors" (fun l => .arr (l.map encodeV0Err)) r.unattributedErrors ++
  [("startTimestamp", .num r.startTimestamp), ("duration", .num r.duration)]

/-- The report field list after the migration's
`delete input.opaqueData`. -/
def encodeV0FieldsClean (r : V0Report) : List (String × JValue) :=
  v0FieldsA r ++ optField "systemUtilization" encodeV0SysUtil r.systemUtilization

/-- The field list `migrateToV1` produces for an encoded `V0.Report`:
the original fields with `opaqueData` removed, the `environments` value
replaced in place by the migrated environments, and `version: 1`
appended. -/
def v0FieldsOut (r : V0Report) : List (String × JValue) :=
  [("category", .str r.category), ("commitId", .str r.commitId)] ++
  optField "relatedCommitIds" (fun l => .arr (l.map .str)) r.relatedCommitIds ++
  optField "configPath" .str r.configPath ++
  optField "url" .str r.url ++
  [("environments", .arr (r.environments.map migratedEnvJ)),
   ("suites", .arr (encodeV0SuiteList r.suites))] ++
  optField "tests" (fun l => .arr (l.map encodeV0Test)) r.tests ++
  optField "unattributedErrors" (fun l => .arr (l.map encodeV0Err)) r.unattributedErrors ++
  [("startTimestamp", .num r.startTimestamp), ("duration", .num r.duration)] ++
  optField "systemUtilization" encodeV0SysUtil r.systemUtilization ++
  [("version", .num 1)]

/-- A concrete legacy environment carrying `userSuppliedData` and
`opaqueData`. -/
def c3WitnessEnv : V0Environment :=
  { name := "E"
    systemData := none
    userSuppliedData := some [("foo", MetaVal.s "bar")]
    oData := some (JValue.str "x") }

/-- A concrete legacy report around `c3WitnessEnv`, with root
`opaqueData`. -/
def c3WitnessReport : V0Report :=
  { category := "pytest"
    commitId := "c"
    relatedCommitIds := none
    configPath := none
    url := none
    environments := [c3WitnessEnv]
    suites := []
    tests := none
    unattributedErrors := none
    startTimestamp := 0
    duration := 0
    oData := some (JValue.str "y")
    systemUtilization := none }

/-! ## Heap model of `migrateToV1`

A heap-level embedding of `migrateToV1`, used to state the frame
property — the function never mutates its input object graph, since it
mutates only the `structuredClone` copy. JS objects and arrays live on
a heap addressed by naturals; primitives are immediate. -/

/-- Heap-level JS value: a primitive or a reference to a heap node. -/
inductive HVal where
  | undef
  | nullv
  | boolv (b : Bool)
  | num (n : Int)
  | str (s : String)
  | ref (a : Nat)
deriving Repr, DecidableEq

/-- A heap node: an array of values or an object with ordered fields. -/
inductive HNode where
  | arr (elems : List HVal)
  | obj (fields : List (String × HVal))
deriving Repr, DecidableEq

/-- The heap: an ordered address-to-node association list. -/
abbrev Heap := List (Nat × HNode)

/-- Node lookup by address (first match). -/
def hfind : Heap → Nat → Option HNode
  | [], _ => none
  | (a0, n0) :: rest, a => if a0 = a then some n0 else hfind rest a

/-- In-place node replacement at an address. -/
def hupdate : Heap → Nat → HNode → Heap
  | [], _, _ => []
  | (a0, n0) :: rest, a, n =>
      if a0 = a then (a0, n) :: rest else (a0, n0) :: hupdate rest a n

/-- The next unused address: one past the maximum allocated address. -/
def hfresh (h : Heap) : Nat :=
  (h.map Prod.fst).foldr (fun x m => max x m) 0 + 1

/-- Allocation of a fresh node, appended so existing lookups are
untouched. -/
def halloc (h : Heap) (n : HNode) : Heap × Nat :=
  (h ++ [(hfresh h, n)], hfresh h)

/-- Field lookup in a heap object. -/
def hlookupF : List (String × HVal) → String → Option HVal
  | [], _ => none
  | (k, v) :: rest, key => if k = key then some v else hlookupF rest key

/-- Effect of `delete obj.key` on a heap object's fields. -/
def hdelKeyF : List (String × HVal) → String → List (String × HVal)
  | [], _ => []
  | (k, v) :: rest, key => if k = key then rest else (k, v) :: hdelKeyF rest key

/-- Effect of a `key: val` assignment in an object literal. -/
def hsetKeyF : List (String × HVal) → String → HVal → List (String × HVal)
  | [], key, val => [(key, val)]
  | (k, v) :: rest, key, val =>
      if k = key then (k, val) :: rest else (k, v) :: hsetKeyF rest key val

/-- The strict comparison `v === 1` on heap values. -/
def isNumOneH (v : HVal) : Bool :=
  match v with
  | .num n => n == 1
  | _ => false

/-- Property read `v.key`: `none` models the TypeError on
`null`/`undefined`. -/
def hget (h : Heap) (v : HVal) (key : String) : Option HVal :=
  match v with
  | .ref a =>
      match hfind h a with
      | some (.obj fs) => some ((hlookupF fs key).getD .undef)
      | some (.arr _) => some .undef
      | none => none
  | .undef => none
  | .nullv => none
  | _ => some (.undef)

/-- Statement `delete v.key`: updates an object node in place, is a
no-op on arrays and non-null primitives, and throws (`none`) on
`null`/`undefined`. -/
def hdeleteKey (h : Heap) (v : HVal) (key : String) : Option Heap :=
  match v with
  | .ref a =>
      match hfind h a with
      | some (.obj fs) => some (hupdate h a (.obj (hdelKeyF fs key)))
      | some (.arr _) => some h
      | none => none
  | .undef => none
  | .nullv => none
  | _ => some h

/-- Clone of an array's elements with the element-cloner `f`, threading
the heap. -/
def hcloneListAux (f : Heap → HVal → Option (Heap × HVal)) :
    Heap → List HVal → Option (Heap × List HVal)
  | h, [] => some (h, [])
  | h, v :: rest =>
      match f h v with
      | some (h1, v1) =>
          match hcloneListAux f h1 rest with
          | some (h2, vs) => some (h2, v1 :: vs)
          | none => none
      | none => none

/-- Clone of an object's fields with the value-cloner `f`, threading the
heap. -/
def hcloneFieldsAux (f : Heap → HVal → Option (Heap × HVal)) :
    Heap → List (String × HVal) → Option (Heap × List (String × HVal))
  | h, [] => some (h, [])
  | h, (k, v) :: rest =>
      match f h v with
      | some (h1, v1) =>
          match hcloneFieldsAux f h1 rest with
          | some (h2, fs) => some (h2, (k, v1) :: fs)
          | none => none
      | none => none

/-- The `structuredClone` deep copy: every reachable node is re-created
at a fresh address (fuel bounds the recursion depth; exhaustion yields
`none`, leaving cyclic inputs outside the modelled domain). -/
def hclone : Nat → Heap → HVal → Option (Heap × HVal)
  | 0, _, _ => none
  | fuel + 1, h, v =>
    match v with
    | .ref a =>
        match hfind h a with
        | some (.arr es) =>
            match hcloneListAux (hclone fuel) h es with
            | some (h1, es1) =>
                match halloc h1 (.arr es1) with
                | (h2, a1) => some (h2, .ref a1)
            | none => none
        | some (.obj fs) =>
            match hcloneFieldsAux (hclone fuel) h fs with
            | some (h1, fs1) =>
                match halloc h1 (.obj fs1) with
                | (h2, a1) => some (h2, .ref a1)
            | none => none
        | none => none
    | prim => some (h, prim)

/-- The loop `for (const env of input.environments) delete
env.opaqueData`: returns the heap reached and whether the loop
completed without throwing. -/
def hdelOpqLoop (h : Heap) : List HVal → Heap × Bool
  | [] => (h, true)
  | e :: rest =>
      match hdeleteKey h e "opaqueData" with
      | some h1 => hdelOpqLoop h1 rest
      | none => (h, false)

/-- The per-environment object literal of the migration result: a new
object spreading the (already `opaqueData`-stripped) environment with
`userSuppliedData: undefined` and `metadata: env.userSuppliedData`. -/
def hspreadEnv (h : Heap) (env : HVal) : Option (Heap × HVal) :=
  match env with
  | .ref a =>
      match hfind h a with
      | some (.obj fs) =>
          match halloc h (.obj (hsetKeyF (hsetKeyF fs "userSuppliedData" .undef)
            "metadata" ((hlookupF fs "userSuppliedData").getD .undef))) with
          | (h1, a1) => some (h1, .ref a1)
      | _ => none
  | .num _ =>
      match halloc h (.obj [("userSuppliedData", .undef), ("metadata", .undef)]) with
      | (h1, a1) => some (h1, .ref a1)
  | .boolv _ =>
      match halloc h (.obj [("userSuppliedData", .undef), ("metadata", .undef)]) with
      | (h1, a1) => some (h1, .ref a1)
  | _ => none

/-- Mapping `hspreadEnv` over the environments. -/
def hspreadEnvList (h : Heap) : List HVal → Option (Heap × List HVal)
  | [] => some (h, [])
  | e :: rest =>
      match hspreadEnv h e with
      | some (h1, v1) =>
          match hspreadEnvList h1 rest with
          | some (h2, vs) => some (h2, v1 :: vs)
          | none => none
      | none => none

/-- Heap-level `migrateToV1`: returns the heap after the call together
with the result (`none` models a thrown TypeError or exhausted clone
fuel). Every mutation (the `delete` statements) happens on the
`structuredClone` copy; the result object and array are freshly
allocated. -/
def hmigrateToV1 (fuel : Nat) (h : Heap) (input : HVal) : Heap × Option HVal :=
  match input with
  | .undef => (h, none)
  | .nullv => (h, none)
  | _ =>
    match hget h input "version" with
    | none => (h, none)
    | some ver =>
      if isNumOneH ver then (h, some input)
      else
        match hclone fuel h input with
        | none => (h, none)
        | some (h1, cloned) =>
          match hdeleteKey h1 cloned "opaqueData" with
          | none => (h1, none)
          | some h2 =>
            match hget h2 cloned "environments" with
            | none => (h2, none)
            | some envsVal =>
              match envsVal with
              | .ref ae =>
                  match hfind h2 ae with
                  | some (.arr envs) =>
                      match hdelOpqLoop h2 envs with
                      | (h3, false) => (h3, none)
                      | (h3, true) =>
                          match hspreadEnvList h3 envs with
                          | none => (h3, none)
                          | some (h4, envs2) =>
                              match halloc h4 (.arr envs2) with
                              | (h5, arrA) =>
                                  match cloned with
                                  | .ref ra =>
                                      match hfind h5 ra with
                                      | some (.obj fs) =>
                                          match halloc h5 (.obj (hsetKeyF (hsetKeyF fs
                                            "environments" (.ref arrA)) "version"
                                            (.num 1))) with
                                          | (h6, ro) => (h6, some (.ref ro))
                                      | _ => (h5, none)
                                  | _ => (h5, none)
                  | _ => (h2, none)
              | _ => (h2, none)

/-- Addresses referenced by a heap value. -/
def refsOfVal : HVal → List Nat
  | .ref a => [a]
  | _ => []

/-- Addresses referenced by an array's elements. -/
def refsList : List HVal → List Nat
  | [] => []
  | v :: rest => refsOfVal v ++ refsList rest

/-- Addresses referenced by an object's field values. -/
def refsFields : List (String × HVal) → List Nat
  | [] => []
  | (_, v) :: rest => refsOfVal v ++ refsFields rest

/-- Addresses referenced by a node. -/
def refsOfNode : HNode → List Nat
  | .arr es => refsList es
  | .obj fs => refsFields fs

/-- `HExt h0 d` says `d` is a self-contained fresh extension of the heap
`h0`: its addresses are all unused in `h0` and its nodes reference only
addresses of `d` itself. The `structuredClone` output satisfies it, and
the subsequent in-place mutations of the migration preserve it, which is
what keeps the input graph in `h0` untouched. -/
def HExt (h0 d : Heap) : Prop :=
  (∀ k ∈ d.map Prod.fst, k ∉ h0.map Prod.fst) ∧
  (∀ p ∈ d, ∀ b ∈ refsOfNode p.2, b ∈ d.map Prod.fst)

/-- A concrete legacy document graph: a report object (address 1) with a
`version: 0` field, a root `opaqueData`, and one environment (address 3)
carrying `userSuppliedData` (address 4) and `opaqueData`. -/
def c8heap : Heap :=
  [(1, .obj [("version", .num 0), ("opaqueData", .str "x"),
     ("environments", .ref 2)]),
   (2, .arr [.ref 3]),
   (3, .obj [("name", .str "E"), ("userSuppliedData", .ref 4),
     ("opaqueData", .str "z")]),
   (4, .obj [("foo", .str "bar")])]

/-! ## Helper lemmas -/

theorem jlookup_setKey_self (fs : List (String × JValue)) (k : String) (val : JValue) :
    jlookup (setKey fs k val) k = some val := by
  induction fs with
  | nil => simp [setKey, jlookup]
  | cons hd tl ih =>
      obtain ⟨k0, v0⟩ := hd
      by_cases h : k0 = k
      · simp [setKey, jlookup, h]
      · simp [setKey, jlookup, h, ih]

theorem isNumOne_iff (v : JValue) : isNumOne v = true ↔ v = .num 1 := by
  cases v <;> simp [isNumOne]

theorem migrateToV1_of_version_one (v : JValue) (h : v.get "version" = .num 1) :
    migrateToV1 v = some v := by
  have hb : isNumOne (v.get "version") = true := (isNumOne_iff _).mpr h
  cases v with
  | undef => simp [JValue.get] at h
  | nullv => simp [JValue.get] at h
  | boolv b => simp [migrateToV1, hb]
  | num n => simp [migrateToV1, hb]
  | str s => simp [migrateToV1, hb]
  | arr es => simp [migrateToV1, hb]
  | obj fs => simp [migrateToV1, hb]

theorem migrateToV1_version_one (v out : JValue) (h : migrateToV1 v = some out) :
    out.get "version" = .num 1 := by
  cases v with
  | undef => simp [migrateToV1] at h
  | nullv => simp [migrateToV1] at h
  | boolv b => simp [migrateToV1, JValue.get, isNumOne] at h
  | num n => simp [migrateToV1, JValue.get, isNumOne] at h
  | str s => simp [migrateToV1, JValue.get, isNumOne] at h
  | arr es => simp [migrateToV1, JValue.get, isNumOne] at h
  | obj fs =>
      rw [migrateToV1] at h
      by_cases hb : isNumOne ((JValue.obj fs).get "version") = true
      · rw [if_pos hb] at h
        obtain rfl : JValue.obj fs = out := by simpa using h
        exact (isNumOne_iff _).mp hb
      · rw [if_neg hb] at h
        simp only at h
        split at h
        · rename_i envs hj
          split at h
          · rename_i envs1 hd
            split at h
            · rename_i envs2 hs
              obtain rfl : JValue.obj (setKey
                  (setKey (delKey fs "opaqueData") "environments" (JValue.arr envs2))
                  "version" (JValue.num 1)) = out := by simpa using h
              simp [JValue.get, jlookup_setKey_self]
            · exact absurd h (by simp)
          · exact absurd h (by simp)
        · exact absurd h (by simp)

/-! ## Migration claims -/

/-- C6: a document already tagged with the current version
(`version === 1`) is returned unchanged by `migrateToV1`. -/
theorem claim_c6_migrate_current_identity (v : JValue) (h : v.get "version" = .num 1) :
    migrateToV1 v = some v :=
  migrateToV1_of_version_one v h

/-- Witness for C6 at a concrete current document. -/
theorem claim_c6_witness :
    migrateToV1 (JValue.obj [("version", JValue.num 1)]) =
      some (JValue.obj [("version", JValue.num 1)]) :=
  claim_c6_migrate_current_identity _ (by simp [JValue.get, jlookup])

/-- C7: `migrateToV1` is idempotent — a second migration of any
successfully migrated document returns it unchanged. -/
theorem claim_c7_migrate_idempotent (v out : JValue) (h : migrateToV1 v = some out) :
    migrateToV1 out = some out :=
  migrateToV1_of_version_one out (migrateToV1_version_one v out h)

/-- Witness for C7 at a concrete legacy document. -/
theorem claim_c7_witness :
    migrateToV1 (JValue.obj [("environments", JValue.arr [])]) =
      some (JValue.obj [("environments", JValue.arr []), ("version", JValue.num 1)]) ∧
    migrateToV1 (JValue.obj [("environments", JValue.arr []), ("version", JValue.num 1)]) =
      some (JValue.obj [("environments", JValue.arr []), ("version", JValue.num 1)]) := by
  constructor
  · simp [migrateToV1, JValue.get, isNumOne, jlookup, delKey, delOpqList, spreadEnvList, setKey]
  · exact claim_c7_migrate_idempotent (JValue.obj [("environments", JValue.arr [])]) _
      (by simp [migrateToV1, JValue.get, isNumOne, jlookup, delKey, delOpqList,
        spreadEnvList, setKey])

/-- C10: the exported `migrateToLatest` (an alias of `migrateToV0`) is
the identity: every input document, legacy fields and all, is returned
unchanged — nothing is dropped, renamed or stamped. -/
theorem claim_c10_migrateToLatest_identity (v : JValue) :
    migrateToLatest v = v ∧ migrateToV0 v = v :=
  ⟨rfl, rfl⟩

/-! ## Traversal claims -/

theorem firstMatch_append {T : Type} (pred : T → List (Suite T) → Bool)
    (a b : List (T × List (Suite T))) :
    firstMatch pred (a ++ b) =
      match firstMatch pred a with
      | some t => some t
      | none => firstMatch pred b := by
  induction a with
  | nil => simp [firstMatch]
  | cons hd tl ih =>
      obtain ⟨t, anc⟩ := hd
      by_cases h : pred t anc <;> simp [firstMatch, h, ih]

theorem prefixToMatch_append {T : Type} (pred : T → List (Suite T) → Bool)
    (a b : List (T × List (Suite T))) :
    prefixToMatch pred (a ++ b) =
      match firstMatch pred a with
      | some _ => prefixToMatch pred a
      | none => a ++ prefixToMatch pred b := by
  induction a with
  | nil => simp [firstMatch, prefixToMatch]
  | cons hd tl ih =>
      obtain ⟨t, anc⟩ := hd
      by_cases h : pred t anc
      · simp [firstMatch, prefixToMatch, h]
      · cases hfm : firstMatch pred tl with
        | none => simp [firstMatch, prefixToMatch, h, hfm, ih]
        | some t0 => simp [firstMatch, prefixToMatch, h, hfm, ih]

theorem prefixToMatch_of_none {T : Type} (pred : T → List (Suite T) → Bool)
    (a : List (T × List (Suite T))) (h : firstMatch pred a = none) :
    prefixToMatch pred a = a := by
  induction a with
  | nil => simp [prefixToMatch]
  | cons hd tl ih =>
      obtain ⟨t, anc⟩ := hd
      by_cases hp : pred t anc
      · simp [firstMatch, hp] at h
      · simp only [firstMatch, hp, Bool.false_eq_true, if_false] at h
        simp [prefixToMatch, hp, ih h]

theorem findInTests_eq {T : Type} (pred : T → List (Suite T) → Bool)
    (ts : List T) (parents : List (Suite T)) :
    findInTests pred ts parents =
      (prefixToMatch pred (ts.map (fun t => (t, parents))),
       firstMatch pred (ts.map (fun t => (t, parents)))) := by
  induction ts with
  | nil => simp [findInTests, prefixToMatch, firstMatch]
  | cons t rest ih =>
      by_cases h : pred t parents <;>
        simp [findInTests, prefixToMatch, firstMatch, h, ih]

mutual

theorem asyncSuiteTrace_eq_visit {T : Type} (s : Suite T) (parents : List (Suite T)) :
    asyncSuiteTrace s parents =
      (visitSuiteTrace s parents).map (fun p => (p.1, p.2.dropLast)) := by
  cases s with
  | mk ty ti lo ss ts =>
      have h := asyncOptTrace_eq_visit ss (parents ++ [Suite.mk ty ti lo ss ts])
      simp only [asyncSuiteTrace, visitSuiteTrace, List.map_append, List.map_map, h]
      congr 1
      apply List.map_congr_left
      intro t _
      simp [List.dropLast_concat]

theorem asyncOptTrace_eq_visit {T : Type} (o : Option (List (Suite T)))
    (parents : List (Suite T)) :
    asyncOptTrace o parents =
      (visitOptTrace o parents).map (fun p => (p.1, p.2.dropLast)) := by
  cases o with
  | none => simp [asyncOptTrace, visitOptTrace]
  | some l => simpa [asyncOptTrace, visitOptTrace] using asyncListTrace_eq_visit l parents

theorem asyncListTrace_eq_visit {T : Type} (l : List (Suite T)) (parents : List (Suite T)) :
    asyncListTrace l parents =
      (visitListTrace l parents).map (fun p => (p.1, p.2.dropLast)) := by
  cases l with
  | nil => simp [asyncListTrace, visitListTrace]
  | cons s rest =>
      simp only [asyncListTrace, visitListTrace, List.map_append,
        asyncSuiteTrace_eq_visit s parents, asyncListTrace_eq_visit rest parents]

end

mutual

theorem findSuiteCalls_eq {T : Type} (pred : T → List (Suite T) → Bool)
    (s : Suite T) (parents : List (Suite T)) :
    findSuiteCalls pred s parents =
      (prefixToMatch pred (asyncSuiteTrace s parents),
       firstMatch pred (asyncSuiteTrace s parents)) := by
  cases s with
  | mk ty ti lo ss ts =>
      have h := findOptCalls_eq pred ss (parents ++ [Suite.mk ty ti lo ss ts])
      simp only [findSuiteCalls, asyncSuiteTrace, h, findInTests_eq,
        prefixToMatch_append, firstMatch_append]
      cases hfm : firstMatch pred ((orEmpty ts).map (fun t => (t, parents))) with
      | none => simp [prefixToMatch_of_none _ _ hfm]
      | some t0 => simp

theorem findOptCalls_eq {T : Type} (pred : T → List (Suite T) → Bool)
    (o : Option (List (Suite T))) (parents : List (Suite T)) :
    findOptCalls pred o parents =
      (prefixToMatch pred (asyncOptTrace o parents),
       firstMatch pred (asyncOptTrace o parents)) := by
  cases o with
  | none => simp [findOptCalls, asyncOptTrace, prefixToMatch, firstMatch]
  | some l => simpa [findOptCalls, asyncOptTrace] using findListCalls_eq pred l parents

theorem findListCalls_eq {T : Type} (pred : T → List (Suite T) → Bool)
    (l : List (Suite T)) (parents : List (Suite T)) :
    findListCalls pred l parents =
      (prefixToMatch pred (asyncListTrace l parents),
       firstMatch pred (asyncListTrace l parents)) := by
  cases l with
  | nil => simp [findListCalls, asyncListTrace, prefixToMatch, firstMatch]
  | cons s rest =>
      simp only [findListCalls, asyncListTrace, prefixToMatch_append, firstMatch_append,
        findSuiteCalls_eq pred s parents, findListCalls_eq pred rest parents]
      cases hfm : firstMatch pred (asyncSuiteTrace s parents) with
      | none => simp [prefixToMatch_of_none _ _ hfm]
      | some t0 => simp

end

/-- C2 counterexample: on the concrete forest `[A]` with `A` holding
`t1` and child suite `B` holding `t2`, the full synchronous visit hands
ancestor lists that include the enclosing suite, while the asynchronous
visit (and likewise `findTest`) hands the ancestors of the enclosing
suite only — so the three variants do not receive the same ancestor
lists. -/
theorem claim_c2_counterexample :
    visitTestsAsyncTrace [suiteA] = [("t1", []), ("t2", [suiteA])] ∧
    visitTestsTrace [suiteA] = [("t1", [suiteA]), ("t2", [suiteA, suiteB])] ∧
    findTestCalls (fun _ _ => false) [suiteA] = [("t1", []), ("t2", [suiteA])] ∧
    visitTestsAsyncTrace [suiteA] ≠ visitTestsTrace [suiteA] := by
  refine ⟨?_, ?_, ?_, ?_⟩
  · simp [visitTestsAsyncTrace, asyncListTrace, asyncSuiteTrace, asyncOptTrace,
      orEmpty, suiteA, suiteB]
  · simp [visitTestsTrace, visitListTrace, visitSuiteTrace, visitOptTrace,
      orEmpty, suiteA, suiteB]
  · simp [findTestCalls, findListCalls, findSuiteCalls, findOptCalls, findInTests,
      orEmpty, suiteA, suiteB]
  · intro h
    rw [show visitTestsAsyncTrace [suiteA] = [("t1", []), ("t2", [suiteA])] by
        simp [visitTestsAsyncTrace, asyncListTrace, asyncSuiteTrace, asyncOptTrace,
          orEmpty, suiteA, suiteB],
      show visitTestsTrace [suiteA] = [("t1", [suiteA]), ("t2", [suiteA, suiteB])] by
        simp [visitTestsTrace, visitListTrace, visitSuiteTrace, visitOptTrace,
          orEmpty, suiteA, suiteB]] at h
    simp [suiteA] at h

/-- C2 (amended): the three traversal variants visit the same tests in
the same order; `visitTests` hands each visitor the ancestor chain
root-most first INCLUDING the test's enclosing suite, while
`visitTestsAsync` and `findTest` hand the same chain without its last
element (the enclosing suite); `findTest` calls its predicate on the
prefix of that sequence up to and including the first match and returns
that match. -/
theorem claim_c2_traversals {T : Type} (forest : List (Suite T))
    (pred : T → List (Suite T) → Bool) :
    visitTestsAsyncTrace forest =
      (visitTestsTrace forest).map (fun p => (p.1, p.2.dropLast)) ∧
    (visitTestsAsyncTrace forest).map Prod.fst = (visitTestsTrace forest).map Prod.fst ∧
    findTestCalls pred forest = prefixToMatch pred (visitTestsAsyncTrace forest) ∧
    findTest pred forest = firstMatch pred (visitTestsAsyncTrace forest) := by
  refine ⟨asyncListTrace_eq_visit forest [], ?_, ?_, ?_⟩
  · rw [visitTestsAsyncTrace, asyncListTrace_eq_visit forest []]
    simp [visitTestsTrace, List.map_map]
  · rw [findTestCalls, findListCalls_eq]
    rfl
  · rw [findTest, findListCalls_eq]
    rfl

/-- C5: on the forest `A(tests:[t1], suites:[B(tests:[t2])])`, the full
synchronous visit calls the visitor exactly twice: on `t1` with
ancestors `[A]`, then on `t2` with ancestors `[A, B]`. -/
theorem claim_c5_visit_order :
    visitTestsTrace [suiteA] = [("t1", [suiteA]), ("t2", [suiteA, suiteB])] := by
  simp [visitTestsTrace, visitListTrace, visitSuiteTrace, visitOptTrace,
    orEmpty, suiteA, suiteB]

/-! ## Validation claims -/

/-- C1 counterexample: the acceptance example document of the
specification does NOT validate cleanly: `FlakinessReport.validate`
(`schema.Report`) reports the missing required `unattributedErrors`
array, and `V1.validate` (`Schema.Report`) reports the missing
`version: 1` literal. -/
theorem claim_c1_counterexample :
    FRvalidate acceptDoc = some [⟨[Seg.key "unattributedErrors"], "invalid_type"⟩] ∧
    V1validate acceptDoc = some ([⟨[Seg.key "version"], "invalid_value"⟩], none) :=
  ⟨by decide, by decide⟩

/-- C1 (amended): the acceptance example extended with
`unattributedErrors: []` validates with zero issues under
`FlakinessReport.validate` (which returns `undefined`). -/
theorem claim_c1_validation_acceptance : FRvalidate acceptDocFixed = none := by
  decide

theorem v1validate_none_iff (doc : JValue) :
    V1validate doc = none ↔ v1ReportIssues doc = [] := by
  by_cases he : (v1ReportIssues doc).isEmpty
  · rw [V1validate]
    simp only [he, if_true]
    simpa using List.isEmpty_iff.mp he
  · rw [V1validate]
    simp only [he, Bool.false_eq_true, if_false]
    constructor
    · intro h; simp at h
    · intro h; exact absurd (by simp [h] : (v1ReportIssues doc).isEmpty = true) he

/-- C4: the formatter shows at most `MAX_ISSUES = 5` issues — always the
first five collected — and a document with exactly 8 violations gets
exactly 5 shown issues plus the "... and 3 more issues ..." line; the
concrete `capDoc` has exactly 8 independent violations and produces
that output. -/
theorem claim_c4_issue_cap :
    (∀ doc shown msg, V1validate doc = some (shown, msg) →
      shown.length ≤ 5 ∧ shown = (v1ReportIssues doc).take 5 ∧
      ((v1ReportIssues doc).length = 8 →
        shown.length = 5 ∧ msg = some "... and 3 more issues ...")) ∧
    (v1ReportIssues capDoc).length = 8 ∧
    V1validate capDoc =
      some ([⟨[Seg.key "category"], "too_small"⟩,
             ⟨[Seg.key "version"], "invalid_value"⟩,
             ⟨[Seg.key "commitId"], "too_small"⟩,
             ⟨[Seg.key "environments", Seg.idx 0, Seg.key "name"], "too_small"⟩,
             ⟨[Seg.key "startTimestamp"], "too_small"⟩],
            some "... and 3 more issues ...") := by
  refine ⟨?_, by decide, by decide⟩
  intro doc shown msg h
  by_cases he : (v1ReportIssues doc).isEmpty
  · rw [V1validate] at h
    simp [he] at h
  · rw [V1validate] at h
    simp only [he, Bool.false_eq_true, if_false, Option.some.injEq, Prod.mk.injEq] at h
    obtain ⟨h1, h2⟩ := h
    subst h1
    subst h2
    refine ⟨?_, rfl, ?_⟩
    · simp [List.length_take]
    · intro hlen
      constructor
      · simp [List.length_take, hlen]
      · simp only [List.length_take, hlen]
        norm_num
        decide

/-- The C4 cap theorem applied to the concrete 8-violation `capDoc`:
its validation output shows the first five issues (at most five), and
since it has exactly 8 violations, exactly five are shown together with
the "... and 3 more issues ..." message. -/
theorem claim_c4_witness :
    ([⟨[Seg.key "category"], "too_small"⟩,
      ⟨[Seg.key "version"], "invalid_value"⟩,
      ⟨[Seg.key "commitId"], "too_small"⟩,
      ⟨[Seg.key "environments", Seg.idx 0, Seg.key "name"], "too_small"⟩,
      ⟨[Seg.key "startTimestamp"], "too_small"⟩] : List Issue).length ≤ 5 ∧
    ([⟨[Seg.key "category"], "too_small"⟩,
      ⟨[Seg.key "version"], "invalid_value"⟩,
      ⟨[Seg.key "commitId"], "too_small"⟩,
      ⟨[Seg.key "environments", Seg.idx 0, Seg.key "name"], "too_small"⟩,
      ⟨[Seg.key "startTimestamp"], "too_small"⟩] : List Issue) =
      (v1ReportIssues capDoc).take 5 ∧
    (([⟨[Seg.key "category"], "too_small"⟩,
       ⟨[Seg.key "version"], "invalid_value"⟩,
       ⟨[Seg.key "commitId"], "too_small"⟩,
       ⟨[Seg.key "environments", Seg.idx 0, Seg.key "name"], "too_small"⟩,
       ⟨[Seg.key "startTimestamp"], "too_small"⟩] : List Issue).length = 5 ∧
      (some "... and 3 more issues ..." : Option String) =
        some "... and 3 more issues ...") := by
  have H := claim_c4_issue_cap.1 capDoc
    [⟨[Seg.key "category"], "too_small"⟩,
     ⟨[Seg.key "version"], "invalid_value"⟩,
     ⟨[Seg.key "commitId"], "too_small"⟩,
     ⟨[Seg.key "environments", Seg.idx 0, Seg.key "name"], "too_small"⟩,
     ⟨[Seg.key "startTimestamp"], "too_small"⟩]
    (some "... and 3 more issues ...") (by decide)
  exact ⟨H.1, H.2.1, H.2.2 (by decide)⟩

/-- C9 counterexample: a fully valid report whose attempt carries
`parallelIndex: -1` is ACCEPTED — neither schema declares a `.min(0)`
bound on `parallelIndex`, so a negative value yields no issue. -/
theorem claim_c9_counterexample :
    parAttempt.get "parallelIndex" = JValue.num (-1) ∧ V1validate parDoc = none :=
  ⟨rfl, by decide⟩

theorem checkStr_nil_lenOk (lo hi : Nat) (p : List Seg) (v : JValue)
    (h : checkStr lo (some hi) p v = []) : strLenOk lo hi v = true := by
  cases v with
  | str s =>
      by_cases h1 : s.length < lo
      · simp [checkStr, h1] at h
      · by_cases h2 : hi < s.length
        · simp [checkStr, h1, h2] at h
        · simp only [strLenOk, Bool.and_eq_true, decide_eq_true_eq]
          omega
  | undef => simp [checkStr, typeIssue] at h
  | nullv => simp [checkStr, typeIssue] at h
  | boolv b => simp [checkStr, typeIssue] at h
  | num n => simp [checkStr, typeIssue] at h
  | arr es => simp [checkStr, typeIssue] at h
  | obj fs => simp [checkStr, typeIssue] at h

theorem checkNum_nil_ge0 (p : List Seg) (v : JValue)
    (h : checkNum (some 0) none p v = []) : numGe0 v = true := by
  cases v with
  | num n =>
      by_cases h1 : n < 0
      · simp [checkNum, h1] at h
      · simp only [numGe0, decide_eq_true_eq]
        omega
  | undef => simp [checkNum, typeIssue] at h
  | nullv => simp [checkNum, typeIssue] at h
  | boolv b => simp [checkNum, typeIssue] at h
  | str s => simp [checkNum, typeIssue] at h
  | arr es => simp [checkNum, typeIssue] at h
  | obj fs => simp [checkNum, typeIssue] at h

theorem checkNum_nil_pct (p : List Seg) (v : JValue)
    (h : checkNum (some 0) (some 100) p v = []) : pctOk v = true := by
  cases v with
  | num n =>
      by_cases h1 : n < 0
      · simp [checkNum, h1] at h
      · by_cases h2 : (100 : Int) < n
        · simp [checkNum, h1, h2] at h
        · simp only [pctOk, Bool.and_eq_true, decide_eq_true_eq]
          omega
  | undef => simp [checkNum, typeIssue] at h
  | nullv => simp [checkNum, typeIssue] at h
  | boolv b => simp [checkNum, typeIssue] at h
  | str s => simp [checkNum, typeIssue] at h
  | arr es => simp [checkNum, typeIssue] at h
  | obj fs => simp [checkNum, typeIssue] at h

theorem jopt_nil (f : List Seg → JValue → List Issue) (p : List Seg) (v : JValue)
    (h : jopt f p v = []) : v = .undef ∨ f p v = [] := by
  cases v with
  | undef => exact Or.inl rfl
  | nullv => exact Or.inr h
  | boolv b => exact Or.inr h
  | num n => exact Or.inr h
  | str s => exact Or.inr h
  | arr es => exact Or.inr h
  | obj fs => exact Or.inr h

theorem arrElems_nil (f : List Seg → JValue → List Issue) (p : List Seg) :
    ∀ (i : Nat) (es : List JValue), arrElems f p i es = [] →
      ∀ e ∈ es, ∃ q, f q e = [] := by
  intro i es
  induction es generalizing i with
  | nil => intro _ e he; simp at he
  | cons e0 rest ih =>
      intro h e he
      rw [arrElems] at h
      rw [List.append_eq_nil] at h
      rcases List.mem_cons.mp he with rfl | hmem
      · exact ⟨_, h.1⟩
      · exact ih (i + 1) h.2 e hmem

theorem checkArr_nil_allOk (f : List Seg → JValue → List Issue) (g : JValue → Bool)
    (hfg : ∀ p e, f p e = [] → g e = true) (p : List Seg) (v : JValue)
    (h : checkArr f p v = []) : arrAllOk g v = true := by
  cases v with
  | arr es =>
      simp only [arrAllOk, List.all_eq_true]
      intro e he
      obtain ⟨q, hq⟩ := arrElems_nil f p 0 es h e he
      exact hfg q e hq
  | undef => simp [checkArr, typeIssue] at h
  | nullv => simp [checkArr, typeIssue] at h
  | boolv b => simp [checkArr, typeIssue] at h
  | num n => simp [checkArr, typeIssue] at h
  | str s => simp [checkArr, typeIssue] at h
  | obj fs => simp [checkArr, typeIssue] at h

theorem joptArr_nil_allOk (f : List Seg → JValue → List Issue) (g : JValue → Bool)
    (hfg : ∀ p e, f p e = [] → g e = true) (p : List Seg) (v : JValue)
    (h : jopt (checkArr f) p v = []) : arrAllOk g v = true := by
  rcases jopt_nil _ p v h with rfl | h2
  · rfl
  · exact checkArr_nil_allOk f g hfg p v h2

theorem joptNum_nil_ge0 (p : List Seg) (v : JValue)
    (h : jopt (checkNum (some 0) none) p v = []) : numGe0 v = true := by
  rcases jopt_nil _ p v h with rfl | h2
  · rfl
  · exact checkNum_nil_ge0 p v h2

mutual

theorem stepIssues_nil_bounds (p : List Seg) (v : JValue) (h : stepIssues p v = []) :
    stepBoundsOk v = true := by
  cases v with
  | obj fs =>
      rw [stepIssues] at h
      simp only [List.append_eq_nil, and_assoc] at h
      obtain ⟨h1, h2, h3, h4, h5, h6⟩ := h
      rw [stepBoundsOk, Bool.and_eq_true]
      exact ⟨checkNum_nil_ge0 _ _ h2, stepsFieldSearch_nil_bounds _ fs h6⟩
  | undef => simp [stepIssues, typeIssue] at h
  | nullv => simp [stepIssues, typeIssue] at h
  | boolv b => simp [stepIssues, typeIssue] at h
  | num n => simp [stepIssues, typeIssue] at h
  | str s => simp [stepIssues, typeIssue] at h
  | arr es => simp [stepIssues, typeIssue] at h

theorem stepsFieldSearch_nil_bounds (p : List Seg) (fs : List (String × JValue))
    (h : stepsFieldSearch p fs = []) : stepsFieldBoundsOk fs = true := by
  cases fs with
  | nil => rfl
  | cons hd rest =>
      obtain ⟨k, v⟩ := hd
      rw [stepsFieldSearch] at h
      rw [stepsFieldBoundsOk]
      by_cases hk : k = "steps"
      · rw [if_pos hk] at h
        rw [if_pos hk]
        exact stepsValIssues_nil_bounds _ v h
      · rw [if_neg hk] at h
        rw [if_neg hk]
        exact stepsFieldSearch_nil_bounds p rest h

theorem stepsValIssues_nil_bounds (p : List Seg) (v : JValue)
    (h : stepsValIssues p v = []) : stepsValBoundsOk v = true := by
  cases v with
  | arr es => exact stepListIssues_nil_bounds p 0 es h
  | undef => rfl
  | nullv => simp [stepsValIssues, typeIssue] at h
  | boolv b => simp [stepsValIssues, typeIssue] at h
  | num n => simp [stepsValIssues, typeIssue] at h
  | str s => simp [stepsValIssues, typeIssue] at h
  | obj fs => simp [stepsValIssues, typeIssue] at h

theorem stepListIssues_nil_bounds (p : List Seg) (i : Nat) (es : List JValue)
    (h : stepListIssues p i es = []) : stepListBoundsOk es = true := by
  cases es with
  | nil => rfl
  | cons e rest =>
      rw [stepListIssues] at h
      rw [List.append_eq_nil] at h
      rw [stepListBoundsOk, Bool.and_eq_true]
      exact ⟨stepIssues_nil_bounds _ e h.1, stepListIssues_nil_bounds p (i + 1) rest h.2⟩

end

theorem attachIssues_nil_bounds (p : List Seg) (v : JValue) (h : attachIssues p v = []) :
    attachBoundsOk v = true := by
  cases v with
  | obj fs =>
      rw [attachIssues] at h
      simp only [List.append_eq_nil, and_assoc] at h
      exact checkStr_nil_lenOk 1 1024 _ _ h.2.2
  | undef => simp [attachIssues, typeIssue] at h
  | nullv => simp [attachIssues, typeIssue] at h
  | boolv b => simp [attachIssues, typeIssue] at h
  | num n => simp [attachIssues, typeIssue] at h
  | str s => simp [attachIssues, typeIssue] at h
  | arr es => simp [attachIssues, typeIssue] at h

theorem v1AttemptIssues_nil_bounds (p : List Seg) (v : JValue)
    (h : v1AttemptIssues p v = []) : attemptBoundsOk v = true := by
  cases v with
  | obj fs =>
      rw [v1AttemptIssues] at h
      simp only [List.append_eq_nil, and_assoc] at h
      obtain ⟨h1, h2, h3, h4, h5, h6, h7, h8, h9, h10, h11, h12, h13⟩ := h
      rw [attemptBoundsOk]
      simp only [Bool.and_eq_true]
      refine ⟨⟨⟨⟨⟨checkNum_nil_ge0 _ _ h1, checkNum_nil_ge0 _ _ h4⟩,
        checkNum_nil_ge0 _ _ h5⟩, joptNum_nil_ge0 _ _ h6⟩, ?_⟩,
        joptArr_nil_allOk attachIssues attachBoundsOk attachIssues_nil_bounds _ _ h13⟩
      rcases jopt_nil _ _ _ h10 with heq | hsv
      · rw [heq]
        rfl
      · exact stepsValIssues_nil_bounds _ _ hsv
  | undef => simp [v1AttemptIssues, typeIssue] at h
  | nullv => simp [v1AttemptIssues, typeIssue] at h
  | boolv b => simp [v1AttemptIssues, typeIssue] at h
  | num n => simp [v1AttemptIssues, typeIssue] at h
  | str s => simp [v1AttemptIssues, typeIssue] at h
  | arr es => simp [v1AttemptIssues, typeIssue] at h

theorem v1TestIssues_nil_bounds (p : List Seg) (v : JValue)
    (h : v1TestIssues p v = []) : testBoundsOk v = true := by
  cases v with
  | obj fs =>
      rw [v1TestIssues] at h
      simp only [List.append_eq_nil, and_assoc] at h
      exact checkArr_nil_allOk v1AttemptIssues attemptBoundsOk
        v1AttemptIssues_nil_bounds _ _ h.2.2.2
  | undef => simp [v1TestIssues, typeIssue] at h
  | nullv => simp [v1TestIssues, typeIssue] at h
  | boolv b => simp [v1TestIssues, typeIssue] at h
  | num n => simp [v1TestIssues, typeIssue] at h
  | str s => simp [v1TestIssues, typeIssue] at h
  | arr es => simp [v1TestIssues, typeIssue] at h

mutual

theorem v1SuiteIssues_nil_bounds (p : List Seg) (v : JValue)
    (h : v1SuiteIssues p v = []) : suiteBoundsOk v = true := by
  cases v with
  | obj fs =>
      rw [v1SuiteIssues] at h
      simp only [List.append_eq_nil, and_assoc] at h
      obtain ⟨h1, h2, h3, h4, h5⟩ := h
      rw [suiteBoundsOk, Bool.and_eq_true]
      exact ⟨v1SuitesFieldSearch_nil_bounds p fs h4,
        joptArr_nil_allOk v1TestIssues testBoundsOk v1TestIssues_nil_bounds _ _ h5⟩
  | undef => simp [v1SuiteIssues, typeIssue] at h
  | nullv => simp [v1SuiteIssues, typeIssue] at h
  | boolv b => simp [v1SuiteIssues, typeIssue] at h
  | num n => simp [v1SuiteIssues, typeIssue] at h
  | str s => simp [v1SuiteIssues, typeIssue] at h
  | arr es => simp [v1SuiteIssues, typeIssue] at h

theorem v1SuitesFieldSearch_nil_bounds (p : List Seg) (fs : List (String × JValue))
    (h : v1SuitesFieldSearch p fs = []) : suitesFieldBoundsOk fs = true := by
  cases fs with
  | nil => rfl
  | cons hd rest =>
      obtain ⟨k, v⟩ := hd
      rw [v1SuitesFieldSearch] at h
      rw [suitesFieldBoundsOk]
      by_cases hk : k = "suites"
      · rw [if_pos hk] at h
        rw [if_pos hk]
        exact v1SuitesValIssues_nil_bounds _ v h
      · rw [if_neg hk] at h
        rw [if_neg hk]
        exact v1SuitesFieldSearch_nil_bounds p rest h

theorem v1SuitesValIssues_nil_bounds (p : List Seg) (v : JValue)
    (h : v1SuitesValIssues p v = []) : suitesValBoundsOk v = true := by
  cases v with
  | arr es => exact v1SuiteListIssues_nil_bounds p 0 es h
  | undef => rfl
  | nullv => simp [v1SuitesValIssues, typeIssue] at h
  | boolv b => simp [v1SuitesValIssues, typeIssue] at h
  | num n => simp [v1SuitesValIssues, typeIssue] at h
  | str s => simp [v1SuitesValIssues, typeIssue] at h
  | obj fs => simp [v1SuitesValIssues, typeIssue] at h

theorem v1SuiteListIssues_nil_bounds (p : List Seg) (i : Nat) (es : List JValue)
    (h : v1SuiteListIssues p i es = []) : suiteListBoundsOk es = true := by
  cases es with
  | nil => rfl
  | cons e rest =>
      rw [v1SuiteListIssues] at h
      rw [List.append_eq_nil] at h
      rw [suiteListBoundsOk, Bool.and_eq_true]
      exact ⟨v1SuiteIssues_nil_bounds _ e h.1,
        v1SuiteListIssues_nil_bounds p (i + 1) rest h.2⟩

end

theorem envIssues_nil_bounds (p : List Seg) (v : JValue) (h : envIssues p v = []) :
    envBoundsOk v = true := by
  cases v with
  | obj fs =>
      rw [envIssues] at h
      simp only [List.append_eq_nil, and_assoc] at h
      exact checkStr_nil_lenOk 1 512 _ _ h.1
  | undef => simp [envIssues, typeIssue] at h
  | nullv => simp [envIssues, typeIssue] at h
  | boolv b => simp [envIssues, typeIssue] at h
  | num n => simp [envIssues, typeIssue] at h
  | str s => simp [envIssues, typeIssue] at h
  | arr es => simp [envIssues, typeIssue] at h

theorem telemIssues_nil_bounds (p : List Seg) (v : JValue) (h : telemIssues p v = []) :
    telemBoundsOk v = true := by
  cases v with
  | arr es =>
      cases es with
      | nil => simp [telemIssues] at h
      | cons a rest =>
          cases rest with
          | nil => simp [telemIssues] at h
          | cons b rest2 =>
              cases rest2 with
              | nil =>
                  simp only [telemIssues] at h
                  rw [List.append_eq_nil] at h
                  rw [telemBoundsOk, Bool.and_eq_true]
                  exact ⟨checkNum_nil_ge0 _ _ h.1, checkNum_nil_pct _ _ h.2⟩
              | cons c rest3 => simp [telemIssues] at h
  | undef => simp [telemIssues, typeIssue] at h
  | nullv => simp [telemIssues, typeIssue] at h
  | boolv b => simp [telemIssues, typeIssue] at h
  | num n => simp [telemIssues, typeIssue] at h
  | str s => simp [telemIssues, typeIssue] at h
  | obj fs => simp [telemIssues, typeIssue] at h

theorem sampleIssues_nil_bounds (p : List Seg) (v : JValue) (h : sampleIssues p v = []) :
    sampleBoundsOk v = true := by
  cases v with
  | obj fs =>
      rw [sampleIssues] at h
      simp only [List.append_eq_nil, and_assoc] at h
      rw [sampleBoundsOk]
      simp only [Bool.and_eq_true]
      exact ⟨⟨checkNum_nil_ge0 _ _ h.1, checkNum_nil_pct _ _ h.2.1⟩,
        checkNum_nil_pct _ _ h.2.2⟩
  | undef => simp [sampleIssues, typeIssue] at h
  | nullv => simp [sampleIssues, typeIssue] at h
  | boolv b => simp [sampleIssues, typeIssue] at h
  | num n => simp [sampleIssues, typeIssue] at h
  | str s => simp [sampleIssues, typeIssue] at h
  | arr es => simp [sampleIssues, typeIssue] at h

theorem sysUtilIssues_nil_bounds (p : List Seg) (v : JValue)
    (h : jopt sysUtilIssues p v = []) : sysUtilBoundsOk v = true := by
  rcases jopt_nil _ _ _ h with rfl | h2
  · rfl
  · cases v with
    | obj fs =>
        rw [sysUtilIssues] at h2
        simp only [List.append_eq_nil, and_assoc] at h2
        rw [sysUtilBoundsOk, Bool.and_eq_true]
        exact ⟨checkNum_nil_ge0 _ _ h2.2.1,
          checkArr_nil_allOk sampleIssues sampleBoundsOk sampleIssues_nil_bounds _ _ h2.2.2⟩
    | undef => rfl
    | nullv => simp [sysUtilIssues, typeIssue] at h2
    | boolv b => simp [sysUtilIssues, typeIssue] at h2
    | num n => simp [sysUtilIssues, typeIssue] at h2
    | str s => simp [sysUtilIssues, typeIssue] at h2
    | arr es => simp [sysUtilIssues, typeIssue] at h2

theorem v1SuitesReqIssues_nil_bounds (p : List Seg) (v : JValue)
    (h : v1SuitesReqIssues p v = []) : suitesValBoundsOk v = true := by
  cases v with
  | arr es => exact v1SuiteListIssues_nil_bounds p 0 es h
  | undef => simp [v1SuitesReqIssues, typeIssue] at h
  | nullv => simp [v1SuitesReqIssues, typeIssue] at h
  | boolv b => simp [v1SuitesReqIssues, typeIssue] at h
  | num n => simp [v1SuitesReqIssues, typeIssue] at h
  | str s => simp [v1SuitesReqIssues, typeIssue] at h
  | obj fs => simp [v1SuitesReqIssues, typeIssue] at h

/-- C9 (amended): an accepted document satisfies every claimed bound
EXCEPT the `parallelIndex` one, which neither schema declares:
`commitId` length exactly 40, `category` length 1..100, environment
names 1..512, attachment ids 1..1024, percent-typed fields in
`[0, 100]`, timestamps and durations non-negative, and every reachable
`RunAttempt.environmentIdx` non-negative; `parallelIndex` is only
type-checked, so (per the counterexample) a negative `parallelIndex`
is accepted. -/
theorem claim_c9_bounds (doc : JValue) (h : V1validate doc = none) :
    reportBoundsOk doc = true := by
  have hi : v1ReportIssues doc = [] := (v1validate_none_iff doc).mp h
  cases doc with
  | obj fs =>
      rw [v1ReportIssues] at hi
      simp only [List.append_eq_nil, and_assoc] at hi
      obtain ⟨h1, h2, h3, h4, h5, h6, h7, h8, h9, h10, h11, h12, h13, h14,
        h15, h16, h17, h18⟩ := hi
      rw [reportBoundsOk]
      simp only [Bool.and_eq_true]
      refine ⟨⟨⟨⟨⟨⟨⟨⟨⟨⟨checkStr_nil_lenOk 1 100 _ _ h1,
        checkStr_nil_lenOk 40 40 _ _ h3⟩,
        checkNum_nil_ge0 _ _ h11⟩,
        checkNum_nil_ge0 _ _ h12⟩,
        checkArr_nil_allOk envIssues envBoundsOk envIssues_nil_bounds _ _ h7⟩,
        v1SuitesReqIssues_nil_bounds _ _ h8⟩,
        joptArr_nil_allOk v1TestIssues testBoundsOk v1TestIssues_nil_bounds _ _ h9⟩,
        sysUtilIssues_nil_bounds _ _ h13⟩,
        joptArr_nil_allOk telemIssues telemBoundsOk telemIssues_nil_bounds _ _ h15⟩,
        joptArr_nil_allOk telemIssues telemBoundsOk telemIssues_nil_bounds _ _ h16⟩,
        joptArr_nil_allOk telemIssues telemBoundsOk telemIssues_nil_bounds _ _ h17⟩
  | undef => simp [v1ReportIssues, typeIssue] at hi
  | nullv => simp [v1ReportIssues, typeIssue] at hi
  | boolv b => simp [v1ReportIssues, typeIssue] at hi
  | num n => simp [v1ReportIssues, typeIssue] at hi
  | str s => simp [v1ReportIssues, typeIssue] at hi
  | arr es => simp [v1ReportIssues, typeIssue] at hi

/-- Witness for C9 at the concrete accepted document. -/
theorem claim_c9_witness : reportBoundsOk parDoc = true :=
  claim_c9_bounds parDoc (by decide)

/-! ## Migration field-relocation claim -/

theorem jlookup_append (a b : List (String × JValue)) (k : String) :
    jlookup (a ++ b) k =
      match jlookup a k with
      | some v => some v
      | none => jlookup b k := by
  induction a with
  | nil => simp [jlookup]
  | cons hd tl ih =>
      obtain ⟨k0, v0⟩ := hd
      by_cases h : k0 = k <;> simp [jlookup, h, ih]

theorem mem_optField {A : Type} (k : String) (enc : A → JValue) (o : Option A)
    (kv : String × JValue) (h : kv ∈ optField k enc o) : kv.1 = k := by
  cases o with
  | none => simp [optField] at h
  | some x =>
      simp only [optField, List.mem_singleton] at h
      rw [h]

theorem jlookup_none_of_ne (fs : List (String × JValue)) (k : String)
    (h : ∀ kv ∈ fs, kv.1 ≠ k) : jlookup fs k = none := by
  induction fs with
  | nil => rfl
  | cons hd tl ih =>
      obtain ⟨k0, v0⟩ := hd
      have hk0 : k0 ≠ k := h (k0, v0) (List.mem_cons_self _ _)
      simp only [jlookup, hk0, if_false]
      exact ih (fun kv hkv => h kv (List.mem_cons_of_mem _ hkv))

theorem jlookup_optField_ne {A : Type} (k : String) (enc : A → JValue) (o : Option A)
    (key : String) (h : k ≠ key) : jlookup (optField k enc o) key = none := by
  cases o with
  | none => rfl
  | some x => simp [optField, jlookup, h]

theorem jlookup_delKey_ne (fs : List (String × JValue)) (k kd : String) (h : k ≠ kd) :
    jlookup (delKey fs kd) k = jlookup fs k := by
  induction fs with
  | nil => rfl
  | cons hd tl ih =>
      obtain ⟨k0, v0⟩ := hd
      by_cases h0 : k0 = kd
      · subst h0
        have : k0 ≠ k := fun he => h (he ▸ rfl)
        simp [delKey, jlookup, this]
      · by_cases h1 : k0 = k <;> simp [delKey, jlookup, h0, h1, h, ih]

theorem jlookup_setKey_ne (fs : List (String × JValue)) (k ks : String) (v : JValue)
    (h : k ≠ ks) : jlookup (setKey fs ks v) k = jlookup fs k := by
  induction fs with
  | nil => simp [setKey, jlookup, Ne.symm h]
  | cons hd tl ih =>
      obtain ⟨k0, v0⟩ := hd
      by_cases h0 : k0 = ks
      · subst h0
        have : k0 ≠ k := Ne.symm h
        simp [setKey, jlookup, this]
      · by_cases h1 : k0 = k <;> simp [setKey, jlookup, h0, h1, h, ih]

theorem mem_delKey (fs : List (String × JValue)) (k : String) (kv : String × JValue)
    (h : kv ∈ delKey fs k) : kv ∈ fs := by
  induction fs with
  | nil => simp [delKey] at h
  | cons hd tl ih =>
      obtain ⟨k0, v0⟩ := hd
      by_cases h0 : k0 = k
      · simp only [delKey, h0, if_true] at h
        exact List.mem_cons_of_mem _ h
      · simp only [delKey, h0, if_false] at h
        rcases List.mem_cons.mp h with rfl | hmem
        · exact List.mem_cons_self _ _
        · exact List.mem_cons_of_mem _ (ih hmem)

theorem mem_setKey (fs : List (String × JValue)) (k : String) (v : JValue)
    (kv : String × JValue) (h : kv ∈ setKey fs k v) : kv ∈ fs ∨ kv = (k, v) := by
  induction fs with
  | nil => simp [setKey] at h; exact Or.inr h
  | cons hd tl ih =>
      obtain ⟨k0, v0⟩ := hd
      by_cases h0 : k0 = k
      · subst h0
        simp only [setKey, if_true] at h
        rcases List.mem_cons.mp h with rfl | hmem
        · exact Or.inr rfl
        · exact Or.inl (List.mem_cons_of_mem _ hmem)
      · simp only [setKey, h0, if_false] at h
        rcases List.mem_cons.mp h with rfl | hmem
        · exact Or.inl (List.mem_cons_self _ _)
        · rcases ih hmem with hm | he
          · exact Or.inl (List.mem_cons_of_mem _ hm)
          · exact Or.inr he

theorem setKey_of_not_mem (fs : List (String × JValue)) (k : String) (v : JValue)
    (h : ∀ kv ∈ fs, kv.1 ≠ k) : setKey fs k v = fs ++ [(k, v)] := by
  induction fs with
  | nil => rfl
  | cons hd tl ih =>
      obtain ⟨k0, v0⟩ := hd
      have hk0 : k0 ≠ k := h (k0, v0) (List.mem_cons_self _ _)
      simp only [setKey, hk0, if_false, List.cons_append, List.cons.injEq, true_and]
      exact ih (fun kv hkv => h kv (List.mem_cons_of_mem _ hkv))

theorem delKey_append_not_mem (a b : List (String × JValue)) (k : String)
    (h : ∀ kv ∈ a, kv.1 ≠ k) : delKey (a ++ b) k = a ++ delKey b k := by
  induction a with
  | nil => rfl
  | cons hd tl ih =>
      obtain ⟨k0, v0⟩ := hd
      have hk0 : k0 ≠ k := h (k0, v0) (List.mem_cons_self _ _)
      simp only [List.cons_append, delKey, hk0, if_false, List.cons.injEq, true_and]
      exact ih (fun kv hkv => h kv (List.mem_cons_of_mem _ hkv))

theorem setKey_append_not_mem (a b : List (String × JValue)) (k : String) (v : JValue)
    (h : ∀ kv ∈ a, kv.1 ≠ k) : setKey (a ++ b) k v = a ++ setKey b k v := by
  induction a with
  | nil => rfl
  | cons hd tl ih =>
      obtain ⟨k0, v0⟩ := hd
      have hk0 : k0 ≠ k := h (k0, v0) (List.mem_cons_self _ _)
      simp only [List.cons_append, setKey, hk0, if_false, List.cons.injEq, true_and]
      exact ih (fun kv hkv => h kv (List.mem_cons_of_mem _ hkv))

theorem jdeleteKey_encodeV0Env (e : V0Environment) :
    jdeleteKey (encodeV0Env e) "opaqueData" = some (encodeV0EnvClean e) := by
  obtain ⟨n, sd, usd, od⟩ := e
  cases sd <;> cases usd <;> cases od <;>
    simp [encodeV0Env, encodeV0EnvClean, jdeleteKey, delKey, optField]

theorem spreadEnv_encodeV0EnvClean (e : V0Environment) :
    spreadEnv (encodeV0EnvClean e) = some (migratedEnvJ e) := by
  obtain ⟨n, sd, usd, od⟩ := e
  cases sd <;> cases usd <;>
    simp [encodeV0EnvClean, migratedEnvJ, spreadEnv, setKey, jlookup, optField]

theorem delOpqList_map_encode (l : List V0Environment) :
    delOpqList (l.map encodeV0Env) = some (l.map encodeV0EnvClean) := by
  induction l with
  | nil => rfl
  | cons e rest ih => simp [delOpqList, jdeleteKey_encodeV0Env, ih]

theorem spreadEnvList_map_encode (l : List V0Environment) :
    spreadEnvList (l.map encodeV0EnvClean) = some (l.map migratedEnvJ) := by
  induction l with
  | nil => rfl
  | cons e rest ih => simp [spreadEnvList, spreadEnv_encodeV0EnvClean, ih]

theorem encodeV0ReportFields_eq (r : V0Report) :
    encodeV0ReportFields r =
      v0FieldsA r ++ (optField "opaqueData" id r.oData ++
        optField "systemUtilization" encodeV0SysUtil r.systemUtilization) := by
  simp [encodeV0ReportFields, v0FieldsA, List.append_assoc]

theorem v0FieldsA_keys (r : V0Report) (kv : String × JValue) (h : kv ∈ v0FieldsA r) :
    kv.1 ∈ (["category", "commitId", "relatedCommitIds", "configPath", "url",
      "environments", "suites", "tests", "unattributedErrors", "startTimestamp",
      "duration"] : List String) := by
  simp only [v0FieldsA, List.append_assoc, List.mem_append] at h
  rcases h with h | h | h | h | h | h | h
  · rcases List.mem_cons.mp h with rfl | h2
    · simp
    · rcases List.mem_cons.mp h2 with rfl | h3
      · simp
      · simp at h3
  · rw [mem_optField _ _ _ _ h]; simp
  · rw [mem_optField _ _ _ _ h]; simp
  · rw [mem_optField _ _ _ _ h]; simp
  · rcases List.mem_cons.mp h with rfl | h2
    · simp
    · rcases List.mem_cons.mp h2 with rfl | h3
      · simp
      · simp at h3
  · rw [mem_optField _ _ _ _ h]; simp
  · rcases h with h1 | h2
    · rw [mem_optField _ _ _ _ h1]; simp
    · rcases List.mem_cons.mp h2 with rfl | h3
      · simp
      · rcases List.mem_cons.mp h3 with rfl | h4
        · simp
        · simp at h4

theorem encodeV0ReportFields_keys (r : V0Report) (kv : String × JValue)
    (h : kv ∈ encodeV0ReportFields r) :
    kv.1 ∈ (["category", "commitId", "relatedCommitIds", "configPath", "url",
      "environments", "suites", "tests", "unattributedErrors", "startTimestamp",
      "duration", "opaqueData", "systemUtilization"] : List String) := by
  rw [encodeV0ReportFields_eq] at h
  rcases List.mem_append.mp h with h1 | h2
  · have := v0FieldsA_keys r kv h1
    simp only [List.mem_cons, List.not_mem_nil, or_false] at this ⊢
    tauto
  · rcases List.mem_append.mp h2 with h3 | h4
    · rw [mem_optField _ _ _ _ h3]; simp
    · rw [mem_optField _ _ _ _ h4]; simp

theorem jlookup_encodeV0ReportFields_version (r : V0Report) :
    jlookup (encodeV0ReportFields r) "version" = none := by
  apply jlookup_none_of_ne
  intro kv hkv
  have := encodeV0ReportFields_keys r kv hkv
  simp only [List.mem_cons, List.not_mem_nil, or_false] at this
  rcases this with h | h | h | h | h | h | h | h | h | h | h | h | h <;>
    (rw [h]; decide)

theorem delKey_encodeV0ReportFields (r : V0Report) :
    delKey (encodeV0ReportFields r) "opaqueData" = encodeV0FieldsClean r := by
  rw [encodeV0ReportFields_eq]
  rw [delKey_append_not_mem]
  · rw [encodeV0FieldsClean]
    congr 1
    cases r.oData with
    | none =>
        cases r.systemUtilization with
        | none => rfl
        | some su => simp [optField, delKey]
    | some od => simp [optField, delKey]
  · intro kv hkv
    have := v0FieldsA_keys r kv hkv
    simp only [List.mem_cons, List.not_mem_nil, or_false] at this
    rcases this with h | h | h | h | h | h | h | h | h | h | h <;>
      (rw [h]; decide)

theorem jlookup_encodeV0FieldsClean_env (r : V0Report) :
    jlookup (encodeV0FieldsClean r) "environments" =
      some (.arr (r.environments.map encodeV0Env)) := by
  rw [encodeV0FieldsClean, v0FieldsA]
  cases r.relatedCommitIds <;> cases r.configPath <;> cases r.url <;>
    simp [optField, jlookup_append, jlookup]

theorem migrateToV1_encodeV0 (r : V0Report) :
    migrateToV1 (encodeV0Report r) =
      some (.obj (setKey (setKey (encodeV0FieldsClean r) "environments"
        (.arr (r.environments.map migratedEnvJ))) "version" (.num 1))) := by
  have hv : isNumOne ((encodeV0Report r).get "version") = false := by
    rw [encodeV0Report, JValue.get, jlookup_encodeV0ReportFields_version]
    rfl
  rw [encodeV0Report, migrateToV1]
  rw [show JValue.get (.obj (encodeV0ReportFields r)) "version" =
      (jlookup (encodeV0ReportFields r) "version").getD .undef from rfl]
  rw [jlookup_encodeV0ReportFields_version]
  simp only [Option.getD_none, isNumOne, Bool.false_eq_true, if_false]
  rw [delKey_encodeV0ReportFields, jlookup_encodeV0FieldsClean_env]
  simp only [delOpqList_map_encode, spreadEnvList_map_encode]

theorem keyValsFields_append (key : String) (a b : List (String × JValue)) :
    keyValsFields key (a ++ b) = keyValsFields key a ++ keyValsFields key b := by
  induction a with
  | nil => simp [keyValsFields]
  | cons hd tl ih =>
      obtain ⟨k0, v0⟩ := hd
      simp [keyValsFields, ih]

theorem keyValsFields_optField_nil {A : Type} (k key : String) (enc : A → JValue)
    (o : Option A) (hk : ¬k = key) (he : ∀ x, JValue.keyVals key (enc x) = []) :
    keyValsFields key (optField k enc o) = [] := by
  cases o with
  | none => rfl
  | some x => simp [optField, keyValsFields, hk, he]

theorem keyValsList_map_nil {A : Type} (key : String) (f : A → JValue) (l : List A)
    (hf : ∀ x, JValue.keyVals key (f x) = []) :
    keyValsList key (l.map f) = [] := by
  induction l with
  | nil => rfl
  | cons x rest ih => simp [keyValsList, hf, ih]

theorem encodeLoc_clean (key : String)
    (hkey : key = "userSuppliedData" ∨ key = "opaqueData") (l : SrcLocation) :
    JValue.keyVals key (encodeLoc l) = [] := by
  rcases hkey with rfl | rfl <;> simp [encodeLoc, JValue.keyVals, keyValsFields]

theorem strJ_clean (key : String) (s : String) : JValue.keyVals key (.str s) = [] := by
  simp [JValue.keyVals]

theorem encodeV0Err_clean (key : String)
    (hkey : key = "userSuppliedData" ∨ key = "opaqueData") (e : V0ReportError) :
    JValue.keyVals key (encodeV0Err e) = [] := by
  obtain ⟨l, m, s, sn, vl⟩ := e
  rcases hkey with rfl | rfl <;>
    cases l <;> cases m <;> cases s <;> cases sn <;> cases vl <;>
      simp [encodeV0Err, optField, JValue.keyVals, keyValsFields, encodeLoc, strJ_clean]

theorem encodeV0Annot_clean (key : String)
    (hkey : key = "userSuppliedData" ∨ key = "opaqueData") (a : V0Annot) :
    JValue.keyVals key (encodeV0Annot a) = [] := by
  obtain ⟨ty, d, l⟩ := a
  rcases hkey with rfl | rfl <;>
    cases d <;> cases l <;>
      simp [encodeV0Annot, optField, JValue.keyVals, keyValsFields, encodeLoc, strJ_clean]

theorem encodeV0Attach_clean (key : String)
    (hkey : key = "userSuppliedData" ∨ key = "opaqueData") (a : V0Attachment) :
    JValue.keyVals key (encodeV0Attach a) = [] := by
  rcases hkey with rfl | rfl <;>
    simp [encodeV0Attach, JValue.keyVals, keyValsFields]

theorem encodeV0Stdio_clean (key : String)
    (hkey : key = "userSuppliedData" ∨ key = "opaqueData") (s : V0Stdio) :
    JValue.keyVals key (encodeV0Stdio s) = [] := by
  rcases hkey with rfl | rfl <;> cases s <;>
    simp [encodeV0Stdio, JValue.keyVals, keyValsFields]

theorem v0StatusJ_clean (key : String) (s : V0Status) :
    JValue.keyVals key s.toJ = [] := by
  cases s <;> simp [V0Status.toJ, JValue.keyVals]

theorem suiteKindJ_clean (key : String) (s : SuiteKind) :
    JValue.keyVals key s.toJ = [] := by
  cases s <;> simp [SuiteKind.toJ, JValue.keyVals]

theorem metaValJ_clean (key : String) (v : MetaVal) :
    JValue.keyVals key v.toJ = [] := by
  cases v <;> simp [MetaVal.toJ, JValue.keyVals]

theorem encodeMeta_clean (key : String) (m : List (String × MetaVal))
    (hm : ∀ kv ∈ m, kv.1 ≠ key) :
    JValue.keyVals key (encodeMeta m) = [] := by
  rw [encodeMeta]
  rw [show JValue.keyVals key (.obj (m.map (fun kv => (kv.1, kv.2.toJ)))) =
      keyValsFields key (m.map (fun kv => (kv.1, kv.2.toJ))) from by
    simp [JValue.keyVals]]
  induction m with
  | nil => rfl
  | cons hd tl ih =>
      obtain ⟨k0, v0⟩ := hd
      have hk0 : k0 ≠ key := hm (k0, v0) (List.mem_cons_self _ _)
      simp only [List.map_cons, keyValsFields, hk0, if_false, metaValJ_clean,
        List.nil_append, List.append_nil]
      exact ih (fun kv hkv => hm kv (List.mem_cons_of_mem _ hkv))

theorem encodeSysData_clean (key : String)
    (hkey : key = "userSuppliedData" ∨ key = "opaqueData")
    (s : Option String × Option String × Option String) :
    JValue.keyVals key (encodeSysData s) = [] := by
  obtain ⟨a, b, c⟩ := s
  rcases hkey with rfl | rfl <;>
    cases a <;> cases b <;> cases c <;>
      simp [encodeSysData, optField, JValue.keyVals, keyValsFields, strJ_clean]

theorem encodeV0Sample_clean (key : String)
    (hkey : key = "userSuppliedData" ∨ key = "opaqueData") (s : Int × Int × Int) :
    JValue.keyVals key (encodeV0Sample s) = [] := by
  obtain ⟨a, b, c⟩ := s
  rcases hkey with rfl | rfl <;> simp [encodeV0Sample, JValue.keyVals, keyValsFields]

theorem encodeV0SysUtil_clean (key : String)
    (hkey : key = "userSuppliedData" ∨ key = "opaqueData") (s : V0SysUtil) :
    JValue.keyVals key (encodeV0SysUtil s) = [] := by
  have hs := encodeV0Sample_clean key hkey
  have hlist := keyValsList_map_nil key encodeV0Sample s.samples hs
  rcases hkey with rfl | rfl <;>
    simp [encodeV0SysUtil, JValue.keyVals, keyValsFields, hlist]

theorem keyVals_obj (key : String) (fs : List (String × JValue)) :
    JValue.keyVals key (.obj fs) = keyValsFields key fs := by
  simp [JValue.keyVals]

theorem keyVals_arr (key : String) (es : List JValue) :
    JValue.keyVals key (.arr es) = keyValsList key es := by
  simp [JValue.keyVals]

theorem numJ_clean (key : String) (n : Int) : JValue.keyVals key (.num n) = [] := by
  simp [JValue.keyVals]

theorem undefJ_clean (key : String) : JValue.keyVals key .undef = [] := by
  simp [JValue.keyVals]

theorem arrMap_clean {A : Type} (key : String) (f : A → JValue)
    (hf : ∀ x, JValue.keyVals key (f x) = []) (l : List A) :
    JValue.keyVals key (.arr (l.map f)) = [] := by
  rw [keyVals_arr]
  exact keyValsList_map_nil key f l hf

mutual

theorem encodeV0Step_clean (key : String)
    (hkey : key = "userSuppliedData" ∨ key = "opaqueData") (s : V0TestStep) :
    JValue.keyVals key (encodeV0Step s) = [] := by
  obtain ⟨title, dur, loc, sn, err, steps⟩ := s
  have hopt := encodeV0StepsOpt_clean key hkey steps
  have herr := encodeV0Err_clean key hkey
  have hloc := encodeLoc_clean key hkey
  rcases hkey with rfl | rfl <;>
    cases loc <;> cases sn <;> cases err <;>
      simp [encodeV0Step, optField, keyVals_obj, keyValsFields_append, keyValsFields,
        hloc, herr, hopt, strJ_clean, numJ_clean]

theorem encodeV0StepsOpt_clean (key : String)
    (hkey : key = "userSuppliedData" ∨ key = "opaqueData")
    (o : Option (List V0TestStep)) :
    keyValsFields key (encodeV0StepsOpt o) = [] := by
  cases o with
  | none => rfl
  | some l =>
      have hl := encodeV0StepList_clean key hkey l
      rcases hkey with rfl | rfl <;>
        simp [encodeV0StepsOpt, keyValsFields, keyVals_arr, hl]

theorem encodeV0StepList_clean (key : String)
    (hkey : key = "userSuppliedData" ∨ key = "opaqueData") (l : List V0TestStep) :
    keyValsList key (encodeV0StepList l) = [] := by
  cases l with
  | nil => rfl
  | cons s rest =>
      have h1 := encodeV0Step_clean key hkey s
      have h2 := encodeV0StepList_clean key hkey rest
      simp [encodeV0StepList, keyValsList, h1, h2]

end

theorem encodeV0Attempt_clean (key : String)
    (hkey : key = "userSuppliedData" ∨ key = "opaqueData") (a : V0RunAttempt) :
    JValue.keyVals key (encodeV0Attempt a) = [] := by
  have hann := encodeV0Annot_clean key hkey
  have herr := encodeV0Err_clean key hkey
  have hatt := encodeV0Attach_clean key hkey
  have hstd := encodeV0Stdio_clean key hkey
  have hsteps := encodeV0StepList_clean key hkey
  obtain ⟨ei, exs, st, sts, du, tm, an, er, pi, sp, so, se, atts⟩ := a
  rcases hkey with rfl | rfl <;>
    (rw [encodeV0Attempt, keyVals_obj]
     simp only [keyValsFields_append, List.append_eq_nil]
     refine ⟨⟨⟨⟨⟨⟨⟨⟨by simp [keyValsFields, numJ_clean, v0StatusJ_clean],
       keyValsFields_optField_nil _ _ _ _ (by decide)
         (fun x => numJ_clean _ x)⟩,
       keyValsFields_optField_nil _ _ _ _ (by decide)
         (fun l => arrMap_clean _ _ hann l)⟩,
       keyValsFields_optField_nil _ _ _ _ (by decide)
         (fun l => arrMap_clean _ _ herr l)⟩,
       keyValsFields_optField_nil _ _ _ _ (by decide)
         (fun x => numJ_clean _ x)⟩,
       keyValsFields_optField_nil _ _ _ _ (by decide)
         (fun l => by rw [keyVals_arr]; exact hsteps l)⟩,
       keyValsFields_optField_nil _ _ _ _ (by decide)
         (fun l => arrMap_clean _ _ hstd l)⟩,
       keyValsFields_optField_nil _ _ _ _ (by decide)
         (fun l => arrMap_clean _ _ hstd l)⟩,
       keyValsFields_optField_nil _ _ _ _ (by decide)
         (fun l => arrMap_clean _ _ hatt l)⟩)

theorem encodeV0Test_clean (key : String)
    (hkey : key = "userSuppliedData" ∨ key = "opaqueData") (t : V0Test) :
    JValue.keyVals key (encodeV0Test t) = [] := by
  have hatt := encodeV0Attempt_clean key hkey
  have hloc := encodeLoc_clean key hkey
  obtain ⟨title, loc, tags, atts⟩ := t
  rcases hkey with rfl | rfl <;>
    cases loc <;> cases tags <;>
      simp [encodeV0Test, optField, keyVals_obj, keyValsFields_append, keyValsFields,
        hloc, strJ_clean, arrMap_clean _ _ hatt,
        arrMap_clean _ JValue.str (fun s => strJ_clean _ s)]

mutual

theorem encodeV0Suite_clean (key : String)
    (hkey : key = "userSuppliedData" ∨ key = "opaqueData") (s : V0Suite) :
    JValue.keyVals key (encodeV0Suite s) = [] := by
  obtain ⟨ty, title, loc, suites, tests⟩ := s
  have hopt := encodeV0SuitesOpt_clean key hkey suites
  have htest := encodeV0Test_clean key hkey
  have hloc := encodeLoc_clean key hkey
  rcases hkey with rfl | rfl <;>
    cases loc <;> cases tests <;>
      simp [encodeV0Suite, optField, keyVals_obj, keyValsFields_append, keyValsFields,
        hloc, suiteKindJ_clean, strJ_clean, hopt, arrMap_clean _ _ htest]

theorem encodeV0SuitesOpt_clean (key : String)
    (hkey : key = "userSuppliedData" ∨ key = "opaqueData")
    (o : Option (List V0Suite)) :
    keyValsFields key (encodeV0SuitesOpt o) = [] := by
  cases o with
  | none => rfl
  | some l =>
      have hl := encodeV0SuiteList_clean key hkey l
      rcases hkey with rfl | rfl <;>
        simp [encodeV0SuitesOpt, keyValsFields, keyVals_arr, hl]

theorem encodeV0SuiteList_clean (key : String)
    (hkey : key = "userSuppliedData" ∨ key = "opaqueData") (l : List V0Suite) :
    keyValsList key (encodeV0SuiteList l) = [] := by
  cases l with
  | nil => rfl
  | cons s rest =>
      have h1 := encodeV0Suite_clean key hkey s
      have h2 := encodeV0SuiteList_clean key hkey rest
      simp [encodeV0SuiteList, keyValsList, h1, h2]

end

theorem migratedEnvJ_opq_clean (e : V0Environment)
    (hm : ∀ kv ∈ e.userSuppliedData.getD [], kv.1 ≠ "opaqueData") :
    JValue.keyVals "opaqueData" (migratedEnvJ e) = [] := by
  obtain ⟨n, sd, usd, od⟩ := e
  have hsys := encodeSysData_clean "opaqueData" (Or.inr rfl)
  cases usd with
  | none =>
      cases sd <;>
        simp [migratedEnvJ, optField, keyVals_obj, keyValsFields_append, keyValsFields,
          hsys, strJ_clean, undefJ_clean]
  | some m =>
      have hmeta : JValue.keyVals "opaqueData" (encodeMeta m) = [] :=
        encodeMeta_clean _ m (by simpa using hm)
      cases sd <;>
        simp [migratedEnvJ, optField, keyVals_obj, keyValsFields_append, keyValsFields,
          hsys, hmeta, strJ_clean, undefJ_clean]

theorem migratedEnvJ_usd_vals (e : V0Environment)
    (hm : ∀ kv ∈ e.userSuppliedData.getD [], kv.1 ≠ "userSuppliedData") :
    JValue.keyVals "userSuppliedData" (migratedEnvJ e) = [.undef] := by
  obtain ⟨n, sd, usd, od⟩ := e
  have hsys := encodeSysData_clean "userSuppliedData" (Or.inl rfl)
  cases usd with
  | none =>
      cases sd <;>
        simp [migratedEnvJ, optField, keyVals_obj, keyValsFields_append, keyValsFields,
          hsys, strJ_clean, undefJ_clean]
  | some m =>
      have hmeta : JValue.keyVals "userSuppliedData" (encodeMeta m) = [] :=
        encodeMeta_clean _ m (by simpa using hm)
      cases sd <;>
        simp [migratedEnvJ, optField, keyVals_obj, keyValsFields_append, keyValsFields,
          hsys, hmeta, strJ_clean, undefJ_clean]

theorem setKey_encodeV0FieldsClean (r : V0Report) :
    setKey (setKey (encodeV0FieldsClean r) "environments"
      (.arr (r.environments.map migratedEnvJ))) "version" (.num 1) =
    v0FieldsOut r := by
  obtain ⟨cat, cid, rel, conf, url, envs, suites, tests, unattr, ts, dur, od, su⟩ := r
  cases rel <;> cases conf <;> cases url <;> cases tests <;> cases unattr <;> cases su <;>
    simp [encodeV0FieldsClean, v0FieldsA, v0FieldsOut, optField, setKey]

theorem jlookup_v0FieldsOut_env (r : V0Report) :
    jlookup (v0FieldsOut r) "environments" =
      some (.arr (r.environments.map migratedEnvJ)) := by
  rw [v0FieldsOut]
  cases r.relatedCommitIds <;> cases r.configPath <;> cases r.url <;>
    simp [optField, jlookup_append, jlookup]

theorem keyValsList_map_nil_mem {A : Type} (key : String) (f : A → JValue) (l : List A)
    (hf : ∀ x ∈ l, JValue.keyVals key (f x) = []) :
    keyValsList key (l.map f) = [] := by
  induction l with
  | nil => rfl
  | cons x rest ih =>
      simp only [List.map_cons, keyValsList, hf x (List.mem_cons_self _ _),
        List.nil_append]
      exact ih (fun y hy => hf y (List.mem_cons_of_mem _ hy))

theorem keyValsList_map_all {A : Type} (key : String) (f : A → JValue)
    (P : JValue → Prop) (l : List A)
    (hf : ∀ x ∈ l, ∀ w ∈ JValue.keyVals key (f x), P w) :
    ∀ w ∈ keyValsList key (l.map f), P w := by
  induction l with
  | nil => intro w hw; simp [keyValsList] at hw
  | cons x rest ih =>
      intro w hw
      simp only [List.map_cons, keyValsList, List.mem_append] at hw
      rcases hw with hw | hw
      · exact hf x (List.mem_cons_self _ _) w hw
      · exact ih (fun y hy => hf y (List.mem_cons_of_mem _ hy)) w hw

theorem v0FieldsOut_opq_clean (r : V0Report)
    (hm : ∀ e ∈ r.environments, ∀ kv ∈ e.userSuppliedData.getD [],
      kv.1 ≠ "userSuppliedData" ∧ kv.1 ≠ "opaqueData") :
    keyValsFields "opaqueData" (v0FieldsOut r) = [] := by
  rw [v0FieldsOut]
  simp only [keyValsFields_append, List.append_eq_nil]
  refine ⟨⟨⟨⟨⟨⟨⟨⟨⟨by simp [keyValsFields, strJ_clean], ?_⟩, ?_⟩, ?_⟩, ?_⟩, ?_⟩, ?_⟩,
    by simp [keyValsFields, numJ_clean]⟩, ?_⟩, by simp [keyValsFields, numJ_clean]⟩
  · exact keyValsFields_optField_nil _ _ _ _ (by decide)
      (fun l => arrMap_clean _ JValue.str (fun s => strJ_clean _ s) l)
  · exact keyValsFields_optField_nil _ _ _ _ (by decide) (fun s => strJ_clean _ s)
  · exact keyValsFields_optField_nil _ _ _ _ (by decide) (fun s => strJ_clean _ s)
  · have henv : keyValsList "opaqueData" (r.environments.map migratedEnvJ) = [] :=
      keyValsList_map_nil_mem _ _ _
        (fun e he => migratedEnvJ_opq_clean e (fun kv hkv => (hm e he kv hkv).2))
    have hsuites := encodeV0SuiteList_clean _ (Or.inr rfl) r.suites
    simp [keyValsFields, keyVals_arr, henv, hsuites]
  · exact keyValsFields_optField_nil _ _ _ _ (by decide)
      (fun l => arrMap_clean _ _ (encodeV0Test_clean _ (Or.inr rfl)) l)
  · exact keyValsFields_optField_nil _ _ _ _ (by decide)
      (fun l => arrMap_clean _ _ (encodeV0Err_clean _ (Or.inr rfl)) l)
  · exact keyValsFields_optField_nil _ _ _ _ (by decide)
      (fun s => encodeV0SysUtil_clean _ (Or.inr rfl) s)

theorem v0FieldsOut_usd_vals (r : V0Report)
    (hm : ∀ e ∈ r.environments, ∀ kv ∈ e.userSuppliedData.getD [],
      kv.1 ≠ "userSuppliedData" ∧ kv.1 ≠ "opaqueData") :
    ∀ w ∈ keyValsFields "userSuppliedData" (v0FieldsOut r), w = .undef := by
  have h1 : keyValsFields "userSuppliedData" (v0FieldsOut r) =
      keyValsList "userSuppliedData" (r.environments.map migratedEnvJ) := by
    rw [v0FieldsOut]
    simp only [keyValsFields_append]
    rw [keyValsFields_optField_nil _ _ _ r.relatedCommitIds (by decide)
      (fun l => arrMap_clean _ JValue.str (fun s => strJ_clean _ s) l)]
    rw [keyValsFields_optField_nil _ _ _ r.configPath (by decide)
      (fun s => strJ_clean _ s)]
    rw [keyValsFields_optField_nil _ _ _ r.url (by decide) (fun s => strJ_clean _ s)]
    rw [keyValsFields_optField_nil _ _ _ r.tests (by decide)
      (fun l => arrMap_clean _ _ (encodeV0Test_clean _ (Or.inl rfl)) l)]
    rw [keyValsFields_optField_nil _ _ _ r.unattributedErrors (by decide)
      (fun l => arrMap_clean _ _ (encodeV0Err_clean _ (Or.inl rfl)) l)]
    rw [keyValsFields_optField_nil _ _ _ r.systemUtilization (by decide)
      (fun s => encodeV0SysUtil_clean _ (Or.inl rfl) s)]
    have hsuites := encodeV0SuiteList_clean _ (Or.inl rfl) r.suites
    simp [keyValsFields, keyVals_arr, strJ_clean, numJ_clean, hsuites]
  rw [h1]
  apply keyValsList_map_all
  intro e he w hw
  rw [migratedEnvJ_usd_vals e (fun kv hkv => (hm e he kv hkv).1)] at hw
  simpa using hw

/-- C3 (amended): migrating any well-typed legacy (version-0) document
whose metadata records do not themselves use the reserved key names
produces: each environment transformed in place with `opaqueData`
removed, `userSuppliedData` re-assigned to the value `undefined` (the
KEY REMAINS PRESENT, holding `undefined`, so it disappears only on
JSON serialization) and `metadata` appended holding the original
record; in particular `(name: E, userSuppliedData: (foo: bar))` becomes
`(name: E, userSuppliedData: undefined, metadata: (foo: bar))`. No
`opaqueData` key survives anywhere in the output, and every remaining
`userSuppliedData` key anywhere in the output holds `undefined`. -/
theorem claim_c3_field_relocation (r : V0Report)
    (hm : ∀ e ∈ r.environments, ∀ kv ∈ e.userSuppliedData.getD [],
      kv.1 ≠ "userSuppliedData" ∧ kv.1 ≠ "opaqueData") :
    migrateToV1 (encodeV0Report r) = some (.obj (v0FieldsOut r)) ∧
    jlookup (v0FieldsOut r) "environments" =
      some (.arr (r.environments.map migratedEnvJ)) ∧
    migratedEnvJ ⟨"E", none, some [("foo", MetaVal.s "bar")], none⟩ =
      .obj [("name", .str "E"), ("userSuppliedData", .undef),
        ("metadata", .obj [("foo", .str "bar")])] ∧
    JValue.keyVals "opaqueData" (.obj (v0FieldsOut r)) = [] ∧
    (∀ w ∈ JValue.keyVals "userSuppliedData" (.obj (v0FieldsOut r)), w = .undef) := by
  refine ⟨?_, jlookup_v0FieldsOut_env r, ?_, ?_, ?_⟩
  · rw [migrateToV1_encodeV0, setKey_encodeV0FieldsClean]
  · simp [migratedEnvJ, optField, encodeMeta, MetaVal.toJ]
  · rw [keyVals_obj]
    exact v0FieldsOut_opq_clean r hm
  · rw [keyVals_obj]
    exact v0FieldsOut_usd_vals r hm

/-- C3 counterexample: for the concrete legacy document with one
environment `(name: E, userSuppliedData: (foo: bar))`, the migrated
environment is NOT the claimed `(name: E, metadata: (foo: bar))` — the
`userSuppliedData` key is still present (holding `undefined`), so the
output does contain a `userSuppliedData` key. -/
theorem claim_c3_counterexample :
    migrateToV1 (JValue.obj [("environments", JValue.arr
      [JValue.obj [("name", JValue.str "E"),
        ("userSuppliedData", JValue.obj [("foo", JValue.str "bar")])]])]) =
    some (JValue.obj [("environments", JValue.arr
      [JValue.obj [("name", JValue.str "E"), ("userSuppliedData", JValue.undef),
        ("metadata", JValue.obj [("foo", JValue.str "bar")])]]),
      ("version", JValue.num 1)]) ∧
    JValue.keyVals "userSuppliedData"
      (JValue.obj [("environments", JValue.arr
        [JValue.obj [("name", JValue.str "E"), ("userSuppliedData", JValue.undef),
          ("metadata", JValue.obj [("foo", JValue.str "bar")])]]),
        ("version", JValue.num 1)]) = [JValue.undef] := by
  constructor
  · simp [migrateToV1, JValue.get, isNumOne, jlookup, delKey, delOpqList, jdeleteKey,
      spreadEnvList, spreadEnv, setKey]
  · simp [JValue.keyVals, keyValsFields, keyValsList]

/-- Witness for C3 at a concrete legacy document carrying both
`opaqueData` fields and a `userSuppliedData` record. -/
theorem claim_c3_witness :
    migrateToV1 (encodeV0Report c3WitnessReport) =
      some (.obj (v0FieldsOut c3WitnessReport)) :=
  (claim_c3_field_relocation c3WitnessReport (by
    intro e he kv hkv
    simp only [c3WitnessReport, c3WitnessEnv, List.mem_singleton] at he
    subst he
    simp only [Option.getD_some, List.mem_singleton] at hkv
    subst hkv
    exact ⟨by decide, by decide⟩)).1

/-! ## Heap frame property of the migration -/

theorem hfind_append (h d : Heap) (a : Nat) :
    hfind (h ++ d) a =
      match hfind h a with
      | some n => some n
      | none => hfind d a := by
  induction h with
  | nil => simp [hfind]
  | cons hd tl ih =>
      obtain ⟨a0, n0⟩ := hd
      by_cases h0 : a0 = a <;> simp [hfind, h0, ih]

theorem hfind_isSome_of_mem (h : Heap) (a : Nat) (ha : a ∈ h.map Prod.fst) :
    ∃ n, hfind h a = some n := by
  induction h with
  | nil => simp at ha
  | cons hd tl ih =>
      obtain ⟨a0, n0⟩ := hd
      by_cases h0 : a0 = a
      · exact ⟨n0, by simp [hfind, h0]⟩
      · simp only [List.map_cons, List.mem_cons] at ha
        rcases ha with rfl | ha
        · exact absurd rfl h0
        · obtain ⟨n, hn⟩ := ih ha
          exact ⟨n, by simp [hfind, h0, hn]⟩

theorem hfind_append_left (h d : Heap) (a : Nat) (ha : a ∈ h.map Prod.fst) :
    hfind (h ++ d) a = hfind h a := by
  obtain ⟨n, hn⟩ := hfind_isSome_of_mem h a ha
  rw [hfind_append, hn]

theorem keys_hupdate (h : Heap) (a : Nat) (n : HNode) :
    (hupdate h a n).map Prod.fst = h.map Prod.fst := by
  induction h with
  | nil => rfl
  | cons hd tl ih =>
      obtain ⟨a0, n0⟩ := hd
      by_cases h0 : a0 = a <;> simp [hupdate, h0, ih]

theorem hupdate_append_not_mem (h d : Heap) (a : Nat) (n : HNode)
    (ha : a ∉ h.map Prod.fst) : hupdate (h ++ d) a n = h ++ hupdate d a n := by
  induction h with
  | nil => rfl
  | cons hd tl ih =>
      obtain ⟨a0, n0⟩ := hd
      have h0 : a0 ≠ a := by
        intro he
        exact ha (by simp [he])
      simp only [List.cons_append, hupdate, h0, if_false, List.cons.injEq, true_and]
      exact ih (fun hm => ha (by simp [hm]))

theorem mem_hupdate (h : Heap) (a : Nat) (n : HNode) (p : Nat × HNode)
    (hp : p ∈ hupdate h a n) : p ∈ h ∨ p = (a, n) := by
  induction h with
  | nil => simp [hupdate] at hp
  | cons hd tl ih =>
      obtain ⟨a0, n0⟩ := hd
      by_cases h0 : a0 = a
      · subst h0
        simp only [hupdate, if_true] at hp
        rcases List.mem_cons.mp hp with rfl | hm
        · exact Or.inr rfl
        · exact Or.inl (List.mem_cons_of_mem _ hm)
      · simp only [hupdate, h0, if_false] at hp
        rcases List.mem_cons.mp hp with rfl | hm
        · exact Or.inl (List.mem_cons_self _ _)
        · rcases ih hm with hm2 | he
          · exact Or.inl (List.mem_cons_of_mem _ hm2)
          · exact Or.inr he

theorem hfind_mem (h : Heap) (a : Nat) (n : HNode) (hf : hfind h a = some n) :
    (a, n) ∈ h := by
  induction h with
  | nil => simp [hfind] at hf
  | cons hd tl ih =>
      obtain ⟨a0, n0⟩ := hd
      by_cases h0 : a0 = a
      · subst h0
        simp only [hfind, if_true] at hf
        obtain rfl : n0 = n := by injection hf
        exact List.mem_cons_self _ _
      · simp only [hfind, h0, if_false] at hf
        exact List.mem_cons_of_mem _ (ih hf)

theorem le_foldrMax (l : List Nat) (k : Nat) (hk : k ∈ l) :
    k ≤ l.foldr (fun x m => max x m) 0 := by
  induction l with
  | nil => simp at hk
  | cons x rest ih =>
      rcases List.mem_cons.mp hk with rfl | hm
      · simp [List.foldr, Nat.le_max_left]
      · exact le_trans (ih hm) (by simp [List.foldr, Nat.le_max_right])

theorem hfresh_not_mem (h : Heap) : hfresh h ∉ h.map Prod.fst := by
  intro hm
  have := le_foldrMax (h.map Prod.fst) _ hm
  simp only [hfresh] at this
  omega

theorem refs_hdelKeyF_sub (fs : List (String × HVal)) (k : String) (b : Nat)
    (hb : b ∈ refsFields (hdelKeyF fs k)) : b ∈ refsFields fs := by
  induction fs with
  | nil => exact hb
  | cons hd tl ih =>
      obtain ⟨k0, v0⟩ := hd
      by_cases h0 : k0 = k
      · simp only [hdelKeyF, h0, if_true] at hb
        simp only [refsFields, List.mem_append]
        exact Or.inr hb
      · simp only [hdelKeyF, h0, if_false, refsFields, List.mem_append] at hb ⊢
        rcases hb with hb | hb
        · exact Or.inl hb
        · exact Or.inr (ih hb)


theorem hfind_not_mem (h : Heap) (a : Nat) (ha : a ∉ h.map Prod.fst) :
    hfind h a = none := by
  cases heq : hfind h a with
  | none => rfl
  | some n =>
      exact absurd (List.mem_map.mpr ⟨(a, n), hfind_mem h a n heq, rfl⟩) ha

theorem hfind_ext (h0 d : Heap) (a : Nat)
    (hdis : ∀ k ∈ d.map Prod.fst, k ∉ h0.map Prod.fst)
    (ha : a ∈ d.map Prod.fst) : hfind (h0 ++ d) a = hfind d a := by
  rw [hfind_append, hfind_not_mem h0 a (hdis a ha)]

theorem refs_hlookupF (fs : List (String × HVal)) (key : String) (w : HVal)
    (hl : hlookupF fs key = some w) (b : Nat) (hb : b ∈ refsOfVal w) :
    b ∈ refsFields fs := by
  induction fs with
  | nil => simp [hlookupF] at hl
  | cons hd tl ih =>
      obtain ⟨k0, v0⟩ := hd
      by_cases h0 : k0 = key
      · simp only [hlookupF, h0, if_true, Option.some.injEq] at hl
        subst hl
        simp only [refsFields, List.mem_append]
        exact Or.inl hb
      · simp only [hlookupF, h0, if_false] at hl
        simp only [refsFields, List.mem_append]
        exact Or.inr (ih hl)

theorem refs_hsetKeyF_sub (fs : List (String × HVal)) (key : String)
    (val : HVal) (b : Nat) (hb : b ∈ refsFields (hsetKeyF fs key val)) :
    b ∈ refsFields fs ∨ b ∈ refsOfVal val := by
  induction fs with
  | nil =>
      simp only [hsetKeyF, refsFields, List.append_nil] at hb
      exact Or.inr hb
  | cons hd tl ih =>
      obtain ⟨k0, v0⟩ := hd
      by_cases h0 : k0 = key
      · simp only [hsetKeyF, h0, if_true, refsFields, List.mem_append] at hb
        rcases hb with hb | hb
        · exact Or.inr hb
        · exact Or.inl (by simp [refsFields, hb])
      · simp only [hsetKeyF, h0, if_false, refsFields, List.mem_append] at hb ⊢
        rcases hb with hb | hb
        · exact Or.inl (Or.inl hb)
        · rcases ih hb with hb2 | hb2
          · exact Or.inl (Or.inr hb2)
          · exact Or.inr hb2

theorem HExt_nil (h0 : Heap) : HExt h0 [] := by
  constructor
  · intro k hk
    simp at hk
  · intro p hp
    simp at hp

theorem HExt_append (h0 d1 d2 : Heap) (h1 : HExt h0 d1)
    (h2 : HExt (h0 ++ d1) d2) : HExt h0 (d1 ++ d2) := by
  obtain ⟨hk1, hc1⟩ := h1
  obtain ⟨hk2, hc2⟩ := h2
  constructor
  · intro k hk
    simp only [List.map_append, List.mem_append] at hk
    rcases hk with hk | hk
    · exact hk1 k hk
    · intro hm
      exact hk2 k hk (by simp [hm])
  · intro p hp b hb
    simp only [List.mem_append] at hp
    simp only [List.map_append, List.mem_append]
    rcases hp with hp | hp
    · exact Or.inl (hc1 p hp b hb)
    · exact Or.inr (hc2 p hp b hb)

theorem HExt_snoc_fresh (h0 d : Heap) (n : HNode)
    (hd : HExt h0 d) (hn : ∀ b ∈ refsOfNode n, b ∈ d.map Prod.fst) :
    HExt h0 (d ++ [(hfresh (h0 ++ d), n)]) := by
  obtain ⟨hk, hc⟩ := hd
  constructor
  · intro k hkm
    simp only [List.map_append, List.mem_append, List.map_cons, List.mem_cons,
      List.not_mem_nil, or_false, List.map_nil] at hkm
    rcases hkm with hkm | rfl
    · exact hk k hkm
    · intro hm
      exact hfresh_not_mem (h0 ++ d) (by simp [hm])
  · intro p hp b hb
    simp only [List.mem_append, List.mem_cons, List.not_mem_nil, or_false] at hp
    simp only [List.map_append, List.mem_append]
    rcases hp with hp | rfl
    · exact Or.inl (hc p hp b hb)
    · exact Or.inl (hn b hb)

theorem HExt_hupdate (h0 d : Heap) (a : Nat) (n0 n : HNode)
    (hd : HExt h0 d) (hmem : (a, n0) ∈ d)
    (hn : ∀ b ∈ refsOfNode n, b ∈ refsOfNode n0) :
    HExt h0 (hupdate d a n) := by
  obtain ⟨hk, hc⟩ := hd
  constructor
  · intro k hkm
    rw [keys_hupdate] at hkm
    exact hk k hkm
  · intro p hp b hb
    rw [keys_hupdate]
    rcases mem_hupdate d a n p hp with hp2 | rfl
    · exact hc p hp2 b hb
    · exact hc (a, n0) hmem b (hn b hb)

theorem hcloneListAux_spec (f : Heap → HVal → Option (Heap × HVal))
    (hf : ∀ h v h1 v1, f h v = some (h1, v1) →
      ∃ d, h1 = h ++ d ∧ HExt h d ∧
        (∀ b ∈ refsOfVal v1, b ∈ d.map Prod.fst))
    (es : List HVal) :
    ∀ h h1 es1, hcloneListAux f h es = some (h1, es1) →
      ∃ d, h1 = h ++ d ∧ HExt h d ∧
        (∀ b ∈ refsList es1, b ∈ d.map Prod.fst) := by
  induction es with
  | nil =>
      intro h h1 es1 hc
      simp only [hcloneListAux, Option.some.injEq, Prod.mk.injEq] at hc
      obtain ⟨rfl, rfl⟩ := hc
      exact ⟨[], by simp, HExt_nil h, by simp [refsList]⟩
  | cons v rest ihrest =>
      intro h h1 es1 hc
      rw [hcloneListAux] at hc
      cases hcv : f h v with
      | none => rw [hcv] at hc; exact absurd hc (by simp)
      | some pr =>
          obtain ⟨hA, v1⟩ := pr
          rw [hcv] at hc
          simp only [] at hc
          cases hcr : hcloneListAux f hA rest with
          | none => rw [hcr] at hc; exact absurd hc (by simp)
          | some pr2 =>
              obtain ⟨h2, vs⟩ := pr2
              rw [hcr] at hc
              simp only [Option.some.injEq, Prod.mk.injEq] at hc
              obtain ⟨rfl, rfl⟩ := hc
              obtain ⟨dA, rfl, hxA, hrA⟩ := hf h v hA v1 hcv
              obtain ⟨dB, rfl, hxB, hrB⟩ := ihrest (h ++ dA) _ _ hcr
              refine ⟨dA ++ dB, by simp, HExt_append h dA dB hxA hxB, ?_⟩
              intro b hb
              simp only [refsList, List.mem_append] at hb
              simp only [List.map_append, List.mem_append]
              rcases hb with hb | hb
              · exact Or.inl (hrA b hb)
              · exact Or.inr (hrB b hb)

theorem hcloneFieldsAux_spec (f : Heap → HVal → Option (Heap × HVal))
    (hf : ∀ h v h1 v1, f h v = some (h1, v1) →
      ∃ d, h1 = h ++ d ∧ HExt h d ∧
        (∀ b ∈ refsOfVal v1, b ∈ d.map Prod.fst))
    (fs : List (String × HVal)) :
    ∀ h h1 fs1, hcloneFieldsAux f h fs = some (h1, fs1) →
      ∃ d, h1 = h ++ d ∧ HExt h d ∧
        (∀ b ∈ refsFields fs1, b ∈ d.map Prod.fst) := by
  induction fs with
  | nil =>
      intro h h1 fs1 hc
      simp only [hcloneFieldsAux, Option.some.injEq, Prod.mk.injEq] at hc
      obtain ⟨rfl, rfl⟩ := hc
      exact ⟨[], by simp, HExt_nil h, by simp [refsFields]⟩
  | cons kv rest ihrest =>
      obtain ⟨k, v⟩ := kv
      intro h h1 fs1 hc
      rw [hcloneFieldsAux] at hc
      cases hcv : f h v with
      | none => rw [hcv] at hc; exact absurd hc (by simp)
      | some pr =>
          obtain ⟨hA, v1⟩ := pr
          rw [hcv] at hc
          simp only [] at hc
          cases hcr : hcloneFieldsAux f hA rest with
          | none => rw [hcr] at hc; exact absurd hc (by simp)
          | some pr2 =>
              obtain ⟨h2, fs2⟩ := pr2
              rw [hcr] at hc
              simp only [Option.some.injEq, Prod.mk.injEq] at hc
              obtain ⟨rfl, rfl⟩ := hc
              obtain ⟨dA, rfl, hxA, hrA⟩ := hf h v hA v1 hcv
              obtain ⟨dB, rfl, hxB, hrB⟩ := ihrest (h ++ dA) _ _ hcr
              refine ⟨dA ++ dB, by simp, HExt_append h dA dB hxA hxB, ?_⟩
              intro b hb
              simp only [refsFields, List.mem_append] at hb
              simp only [List.map_append, List.mem_append]
              rcases hb with hb | hb
              · exact Or.inl (hrA b hb)
              · exact Or.inr (hrB b hb)

theorem hclone_spec (fuel : Nat) :
    ∀ h v h1 v1, hclone fuel h v = some (h1, v1) →
      ∃ d, h1 = h ++ d ∧ HExt h d ∧
        (∀ b ∈ refsOfVal v1, b ∈ d.map Prod.fst) := by
  induction fuel with
  | zero =>
      intro h v h1 v1 hc
      simp [hclone] at hc
  | succ fuel ih =>
      intro h v h1 v1 hc
      cases v with
      | ref a =>
          rw [hclone] at hc
          cases hf : hfind h a with
          | none => rw [hf] at hc; exact absurd hc (by simp)
          | some node =>
              rw [hf] at hc
              cases node with
              | arr es =>
                  simp only [] at hc
                  cases hcl : hcloneListAux (hclone fuel) h es with
                  | none => rw [hcl] at hc; exact absurd hc (by simp)
                  | some pr =>
                      obtain ⟨hA, es1⟩ := pr
                      rw [hcl] at hc
                      simp only [halloc, Option.some.injEq, Prod.mk.injEq] at hc
                      obtain ⟨rfl, rfl⟩ := hc
                      obtain ⟨dA, rfl, hx, hr⟩ :=
                        hcloneListAux_spec (hclone fuel) ih es h hA es1 hcl
                      refine ⟨dA ++ [(hfresh (h ++ dA), .arr es1)], by simp,
                        HExt_snoc_fresh h dA (.arr es1) hx hr, ?_⟩
                      intro b hb
                      simp only [refsOfVal, List.mem_singleton] at hb
                      subst hb
                      simp
              | obj fs =>
                  simp only [] at hc
                  cases hcl : hcloneFieldsAux (hclone fuel) h fs with
                  | none => rw [hcl] at hc; exact absurd hc (by simp)
                  | some pr =>
                      obtain ⟨hA, fs1⟩ := pr
                      rw [hcl] at hc
                      simp only [halloc, Option.some.injEq, Prod.mk.injEq] at hc
                      obtain ⟨rfl, rfl⟩ := hc
                      obtain ⟨dA, rfl, hx, hr⟩ :=
                        hcloneFieldsAux_spec (hclone fuel) ih fs h hA fs1 hcl
                      refine ⟨dA ++ [(hfresh (h ++ dA), .obj fs1)], by simp,
                        HExt_snoc_fresh h dA (.obj fs1) hx hr, ?_⟩
                      intro b hb
                      simp only [refsOfVal, List.mem_singleton] at hb
                      subst hb
                      simp
      | undef =>
          simp only [hclone, Option.some.injEq, Prod.mk.injEq] at hc
          obtain ⟨rfl, rfl⟩ := hc
          exact ⟨[], by simp, HExt_nil h, by simp [refsOfVal]⟩
      | nullv =>
          simp only [hclone, Option.some.injEq, Prod.mk.injEq] at hc
          obtain ⟨rfl, rfl⟩ := hc
          exact ⟨[], by simp, HExt_nil h, by simp [refsOfVal]⟩
      | boolv b0 =>
          simp only [hclone, Option.some.injEq, Prod.mk.injEq] at hc
          obtain ⟨rfl, rfl⟩ := hc
          exact ⟨[], by simp, HExt_nil h, by simp [refsOfVal]⟩
      | num n0 =>
          simp only [hclone, Option.some.injEq, Prod.mk.injEq] at hc
          obtain ⟨rfl, rfl⟩ := hc
          exact ⟨[], by simp, HExt_nil h, by simp [refsOfVal]⟩
      | str s0 =>
          simp only [hclone, Option.some.injEq, Prod.mk.injEq] at hc
          obtain ⟨rfl, rfl⟩ := hc
          exact ⟨[], by simp, HExt_nil h, by simp [refsOfVal]⟩

theorem hdeleteKey_ext (h0 d : Heap) (v : HVal) (key : String) (h2 : Heap)
    (hd : HExt h0 d) (hv : ∀ b ∈ refsOfVal v, b ∈ d.map Prod.fst)
    (hdel : hdeleteKey (h0 ++ d) v key = some h2) :
    ∃ d2, h2 = h0 ++ d2 ∧ HExt h0 d2 ∧ d2.map Prod.fst = d.map Prod.fst := by
  cases v with
  | ref a =>
      have ha : a ∈ d.map Prod.fst := hv a (by simp [refsOfVal])
      have hna : a ∉ h0.map Prod.fst := hd.1 a ha
      rw [hdeleteKey, hfind_ext h0 d a hd.1 ha] at hdel
      cases hfd : hfind d a with
      | none =>
          obtain ⟨n, hn⟩ := hfind_isSome_of_mem d a ha
          rw [hfd] at hn
          exact absurd hn (by simp)
      | some node =>
          rw [hfd] at hdel
          cases node with
          | obj fs =>
              simp only [Option.some.injEq] at hdel
              subst hdel
              rw [hupdate_append_not_mem h0 d a _ hna]
              refine ⟨hupdate d a (.obj (hdelKeyF fs key)), rfl, ?_,
                keys_hupdate d a _⟩
              exact HExt_hupdate h0 d a (.obj fs) (.obj (hdelKeyF fs key)) hd
                (hfind_mem d a _ hfd) (fun b hb => refs_hdelKeyF_sub fs key b hb)
          | arr es =>
              simp only [Option.some.injEq] at hdel
              subst hdel
              exact ⟨d, rfl, hd, rfl⟩
  | undef => simp [hdeleteKey] at hdel
  | nullv => simp [hdeleteKey] at hdel
  | boolv b0 =>
      simp only [hdeleteKey, Option.some.injEq] at hdel
      subst hdel
      exact ⟨d, rfl, hd, rfl⟩
  | num n0 =>
      simp only [hdeleteKey, Option.some.injEq] at hdel
      subst hdel
      exact ⟨d, rfl, hd, rfl⟩
  | str s0 =>
      simp only [hdeleteKey, Option.some.injEq] at hdel
      subst hdel
      exact ⟨d, rfl, hd, rfl⟩

theorem hget_ext_refs (h0 d : Heap) (v : HVal) (key : String) (w : HVal)
    (hd : HExt h0 d) (hv : ∀ b ∈ refsOfVal v, b ∈ d.map Prod.fst)
    (hg : hget (h0 ++ d) v key = some w) :
    ∀ b ∈ refsOfVal w, b ∈ d.map Prod.fst := by
  cases v with
  | ref a =>
      have ha : a ∈ d.map Prod.fst := hv a (by simp [refsOfVal])
      rw [hget, hfind_ext h0 d a hd.1 ha] at hg
      cases hfd : hfind d a with
      | none => rw [hfd] at hg; exact absurd hg (by simp)
      | some node =>
          rw [hfd] at hg
          cases node with
          | arr es =>
              simp only [Option.some.injEq] at hg
              subst hg
              intro b hb
              simp [refsOfVal] at hb
          | obj fs =>
              simp only [Option.some.injEq] at hg
              subst hg
              cases hl : hlookupF fs key with
              | none =>
                  intro b hb
                  simp [Option.getD, refsOfVal] at hb
              | some w0 =>
                  intro b hb
                  simp only [Option.getD] at hb
                  exact hd.2 (a, .obj fs) (hfind_mem d a _ hfd) b
                    (refs_hlookupF fs key w0 hl b hb)
  | undef => simp [hget] at hg
  | nullv => simp [hget] at hg
  | boolv b0 =>
      simp only [hget, Option.some.injEq] at hg
      subst hg
      intro b hb
      simp [refsOfVal] at hb
  | num n0 =>
      simp only [hget, Option.some.injEq] at hg
      subst hg
      intro b hb
      simp [refsOfVal] at hb
  | str s0 =>
      simp only [hget, Option.some.injEq] at hg
      subst hg
      intro b hb
      simp [refsOfVal] at hb

theorem hdelOpqLoop_ext (h0 : Heap) (envs : List HVal) :
    ∀ (d h3 : Heap) (ok : Bool), HExt h0 d →
      (∀ b ∈ refsList envs, b ∈ d.map Prod.fst) →
      hdelOpqLoop (h0 ++ d) envs = (h3, ok) →
      ∃ d3, h3 = h0 ++ d3 ∧ HExt h0 d3 ∧
        d3.map Prod.fst = d.map Prod.fst := by
  induction envs with
  | nil =>
      intro d h3 ok hx hrefs hrun
      simp only [hdelOpqLoop, Prod.mk.injEq] at hrun
      obtain ⟨rfl, rfl⟩ := hrun
      exact ⟨d, rfl, hx, rfl⟩
  | cons e rest ih =>
      intro d h3 ok hx hrefs hrun
      rw [hdelOpqLoop] at hrun
      cases hde : hdeleteKey (h0 ++ d) e "opaqueData" with
      | none =>
          rw [hde] at hrun
          simp only [Prod.mk.injEq] at hrun
          obtain ⟨rfl, rfl⟩ := hrun
          exact ⟨d, rfl, hx, rfl⟩
      | some h1 =>
          rw [hde] at hrun
          simp only [] at hrun
          have hre : ∀ b ∈ refsOfVal e, b ∈ d.map Prod.fst := by
            intro b hb
            exact hrefs b (by simp [refsList, hb])
          obtain ⟨d2, rfl, hx2, hk2⟩ := hdeleteKey_ext h0 d e "opaqueData" h1 hx hre hde
          have hrest : ∀ b ∈ refsList rest, b ∈ d2.map Prod.fst := by
            intro b hb
            rw [hk2]
            exact hrefs b (by simp [refsList, hb])
          obtain ⟨d3, rfl, hx3, hk3⟩ := ih d2 h3 ok hx2 hrest hrun
          exact ⟨d3, rfl, hx3, by rw [hk3, hk2]⟩

theorem hspreadEnv_ext (h0 d : Heap) (env : HVal) (h1 : Heap) (v1 : HVal)
    (hd : HExt h0 d) (hv : ∀ b ∈ refsOfVal env, b ∈ d.map Prod.fst)
    (hs : hspreadEnv (h0 ++ d) env = some (h1, v1)) :
    ∃ d1, h1 = h0 ++ d1 ∧ HExt h0 d1 ∧
      (∀ b ∈ refsOfVal v1, b ∈ d1.map Prod.fst) ∧
      (∀ k ∈ d.map Prod.fst, k ∈ d1.map Prod.fst) := by
  cases env with
  | ref a =>
      have ha : a ∈ d.map Prod.fst := hv a (by simp [refsOfVal])
      rw [hspreadEnv, hfind_ext h0 d a hd.1 ha] at hs
      cases hfd : hfind d a with
      | none => rw [hfd] at hs; exact absurd hs (by simp)
      | some node =>
          rw [hfd] at hs
          cases node with
          | arr es => exact absurd hs (by simp)
          | obj fs =>
              simp only [halloc, Option.some.injEq, Prod.mk.injEq] at hs
              obtain ⟨rfl, rfl⟩ := hs
              have hfsd : ∀ b ∈ refsFields fs, b ∈ d.map Prod.fst :=
                hd.2 (a, .obj fs) (hfind_mem d a _ hfd)
              have hnode : ∀ b ∈ refsFields (hsetKeyF
                  (hsetKeyF fs "userSuppliedData" .undef) "metadata"
                  ((hlookupF fs "userSuppliedData").getD .undef)),
                  b ∈ d.map Prod.fst := by
                intro b hb
                rcases refs_hsetKeyF_sub _ _ _ b hb with hb2 | hb2
                · rcases refs_hsetKeyF_sub _ _ _ b hb2 with hb3 | hb3
                  · exact hfsd b hb3
                  · simp [refsOfVal] at hb3
                · cases hl : hlookupF fs "userSuppliedData" with
                  | none =>
                      rw [hl] at hb2
                      simp [Option.getD, refsOfVal] at hb2
                  | some w0 =>
                      rw [hl] at hb2
                      simp only [Option.getD] at hb2
                      exact hfsd b (refs_hlookupF fs _ w0 hl b hb2)
              refine ⟨d ++ [(hfresh (h0 ++ d), .obj (hsetKeyF
                (hsetKeyF fs "userSuppliedData" .undef) "metadata"
                ((hlookupF fs "userSuppliedData").getD .undef)))],
                by simp, HExt_snoc_fresh h0 d (.obj (hsetKeyF
                  (hsetKeyF fs "userSuppliedData" .undef) "metadata"
                  ((hlookupF fs "userSuppliedData").getD .undef))) hd hnode,
                ?_, ?_⟩
              · intro b hb
                simp only [refsOfVal, List.mem_singleton] at hb
                subst hb
                simp
              · intro k hk
                simp only [List.map_append, List.mem_append]
                exact Or.inl hk
  | num n0 =>
      simp only [hspreadEnv, halloc, Option.some.injEq, Prod.mk.injEq] at hs
      obtain ⟨rfl, rfl⟩ := hs
      refine ⟨d ++ [(hfresh (h0 ++ d),
        .obj [("userSuppliedData", .undef), ("metadata", .undef)])],
        by simp, HExt_snoc_fresh h0 d
          (.obj [("userSuppliedData", .undef), ("metadata", .undef)]) hd
          (by simp [refsOfNode, refsFields, refsOfVal]), ?_, ?_⟩
      · intro b hb
        simp only [refsOfVal, List.mem_singleton] at hb
        subst hb
        simp
      · intro k hk
        simp only [List.map_append, List.mem_append]
        exact Or.inl hk
  | boolv b0 =>
      simp only [hspreadEnv, halloc, Option.some.injEq, Prod.mk.injEq] at hs
      obtain ⟨rfl, rfl⟩ := hs
      refine ⟨d ++ [(hfresh (h0 ++ d),
        .obj [("userSuppliedData", .undef), ("metadata", .undef)])],
        by simp, HExt_snoc_fresh h0 d
          (.obj [("userSuppliedData", .undef), ("metadata", .undef)]) hd
          (by simp [refsOfNode, refsFields, refsOfVal]), ?_, ?_⟩
      · intro b hb
        simp only [refsOfVal, List.mem_singleton] at hb
        subst hb
        simp
      · intro k hk
        simp only [List.map_append, List.mem_append]
        exact Or.inl hk
  | undef => simp [hspreadEnv] at hs
  | nullv => simp [hspreadEnv] at hs
  | str s0 => simp [hspreadEnv] at hs

theorem hspreadEnvList_ext (h0 : Heap) (envs : List HVal) :
    ∀ (d h4 : Heap) (envs2 : List HVal), HExt h0 d →
      (∀ b ∈ refsList envs, b ∈ d.map Prod.fst) →
      hspreadEnvList (h0 ++ d) envs = some (h4, envs2) →
      ∃ d4, h4 = h0 ++ d4 ∧ HExt h0 d4 ∧
        (∀ b ∈ refsList envs2, b ∈ d4.map Prod.fst) ∧
        (∀ k ∈ d.map Prod.fst, k ∈ d4.map Prod.fst) := by
  induction envs with
  | nil =>
      intro d h4 envs2 hx hrefs hrun
      simp only [hspreadEnvList, Option.some.injEq, Prod.mk.injEq] at hrun
      obtain ⟨rfl, rfl⟩ := hrun
      exact ⟨d, rfl, hx, by simp [refsList], fun k hk => hk⟩
  | cons e rest ih =>
      intro d h4 envs2 hx hrefs hrun
      rw [hspreadEnvList] at hrun
      cases hse : hspreadEnv (h0 ++ d) e with
      | none => rw [hse] at hrun; exact absurd hrun (by simp)
      | some pr =>
          obtain ⟨hA, v1⟩ := pr
          rw [hse] at hrun
          simp only [] at hrun
          cases hsr : hspreadEnvList hA rest with
          | none => rw [hsr] at hrun; exact absurd hrun (by simp)
          | some pr2 =>
              obtain ⟨h2, vs⟩ := pr2
              rw [hsr] at hrun
              simp only [Option.some.injEq, Prod.mk.injEq] at hrun
              obtain ⟨rfl, rfl⟩ := hrun
              have hre : ∀ b ∈ refsOfVal e, b ∈ d.map Prod.fst := by
                intro b hb
                exact hrefs b (by simp [refsList, hb])
              obtain ⟨d1, rfl, hx1, hr1, hk1⟩ :=
                hspreadEnv_ext h0 d e hA v1 hx hre hse
              have hrest : ∀ b ∈ refsList rest, b ∈ d1.map Prod.fst := by
                intro b hb
                exact hk1 b (hrefs b (by simp [refsList, hb]))
              obtain ⟨d4, rfl, hx4, hr4, hk4⟩ := ih d1 h2 vs hx1 hrest hsr
              refine ⟨d4, rfl, hx4, ?_, fun k hk => hk4 k (hk1 k hk)⟩
              intro b hb
              simp only [refsList, List.mem_append] at hb
              rcases hb with hb | hb
              · exact hk4 b (hr1 b hb)
              · exact hr4 b hb

theorem exists_append_one (h X : Heap) (p : Nat × HNode) :
    ∃ d, (h ++ X) ++ [p] = h ++ d :=
  ⟨X ++ [p], by simp⟩

theorem hmigrateToV1_frame (fuel : Nat) (h : Heap) (input : HVal)
    (h' : Heap) (res : Option HVal)
    (hrun : hmigrateToV1 fuel h input = (h', res)) :
    ∃ d, h' = h ++ d := by
  cases input with
  | undef =>
      simp only [hmigrateToV1, Prod.mk.injEq] at hrun
      obtain ⟨rfl, rfl⟩ := hrun
      exact ⟨[], by simp⟩
  | nullv =>
      simp only [hmigrateToV1, Prod.mk.injEq] at hrun
      obtain ⟨rfl, rfl⟩ := hrun
      exact ⟨[], by simp⟩
  | num n0 =>
      cases fuel with
      | zero =>
          simp [hmigrateToV1, hget, isNumOneH, hclone, Prod.mk.injEq] at hrun
          obtain ⟨rfl, rfl⟩ := hrun
          exact ⟨[], by simp⟩
      | succ fuel =>
          simp [hmigrateToV1, hget, isNumOneH, hclone, hdeleteKey,
            Prod.mk.injEq] at hrun
          obtain ⟨rfl, rfl⟩ := hrun
          exact ⟨[], by simp⟩
  | str s0 =>
      cases fuel with
      | zero =>
          simp [hmigrateToV1, hget, isNumOneH, hclone, Prod.mk.injEq] at hrun
          obtain ⟨rfl, rfl⟩ := hrun
          exact ⟨[], by simp⟩
      | succ fuel =>
          simp [hmigrateToV1, hget, isNumOneH, hclone, hdeleteKey,
            Prod.mk.injEq] at hrun
          obtain ⟨rfl, rfl⟩ := hrun
          exact ⟨[], by simp⟩
  | boolv b0 =>
      cases fuel with
      | zero =>
          simp [hmigrateToV1, hget, isNumOneH, hclone, Prod.mk.injEq] at hrun
          obtain ⟨rfl, rfl⟩ := hrun
          exact ⟨[], by simp⟩
      | succ fuel =>
          simp [hmigrateToV1, hget, isNumOneH, hclone, hdeleteKey,
            Prod.mk.injEq] at hrun
          obtain ⟨rfl, rfl⟩ := hrun
          exact ⟨[], by simp⟩
  | ref a =>
      simp only [hmigrateToV1] at hrun
      cases hgv : hget h (.ref a) "version" with
      | none =>
          rw [hgv] at hrun
          simp only [Prod.mk.injEq] at hrun
          obtain ⟨rfl, rfl⟩ := hrun
          exact ⟨[], by simp⟩
      | some ver =>
          rw [hgv] at hrun
          simp only [] at hrun
          by_cases hv1 : isNumOneH ver = true
          · rw [if_pos hv1] at hrun
            simp only [Prod.mk.injEq] at hrun
            obtain ⟨rfl, rfl⟩ := hrun
            exact ⟨[], by simp⟩
          · rw [if_neg hv1] at hrun
            cases hcl : hclone fuel h (.ref a) with
            | none =>
                rw [hcl] at hrun
                simp only [Prod.mk.injEq] at hrun
                obtain ⟨rfl, rfl⟩ := hrun
                exact ⟨[], by simp⟩
            | some pr =>
                obtain ⟨h1, cloned⟩ := pr
                rw [hcl] at hrun
                simp only [] at hrun
                obtain ⟨dC, rfl, hxC, hrC⟩ :=
                  hclone_spec fuel h (.ref a) h1 cloned hcl
                cases hdk : hdeleteKey (h ++ dC) cloned "opaqueData" with
                | none =>
                    rw [hdk] at hrun
                    simp only [Prod.mk.injEq] at hrun
                    obtain ⟨rfl, rfl⟩ := hrun
                    exact ⟨dC, rfl⟩
                | some h2 =>
                    rw [hdk] at hrun
                    simp only [] at hrun
                    obtain ⟨d2, rfl, hx2, hk2⟩ :=
                      hdeleteKey_ext h dC cloned "opaqueData" h2 hxC hrC hdk
                    have hrC2 : ∀ b ∈ refsOfVal cloned, b ∈ d2.map Prod.fst := by
                      intro b hb
                      rw [hk2]
                      exact hrC b hb
                    cases hge : hget (h ++ d2) cloned "environments" with
                    | none =>
                        rw [hge] at hrun
                        simp only [Prod.mk.injEq] at hrun
                        obtain ⟨rfl, rfl⟩ := hrun
                        exact ⟨d2, rfl⟩
                    | some envsVal =>
                        rw [hge] at hrun
                        simp only [] at hrun
                        have hrE : ∀ b ∈ refsOfVal envsVal,
                            b ∈ d2.map Prod.fst :=
                          hget_ext_refs h d2 cloned "environments" envsVal
                            hx2 hrC2 hge
                        cases envsVal with
                        | undef =>
                            simp only [Prod.mk.injEq] at hrun
                            obtain ⟨rfl, rfl⟩ := hrun
                            exact ⟨d2, rfl⟩
                        | nullv =>
                            simp only [Prod.mk.injEq] at hrun
                            obtain ⟨rfl, rfl⟩ := hrun
                            exact ⟨d2, rfl⟩
                        | boolv bb =>
                            simp only [Prod.mk.injEq] at hrun
                            obtain ⟨rfl, rfl⟩ := hrun
                            exact ⟨d2, rfl⟩
                        | num nn =>
                            simp only [Prod.mk.injEq] at hrun
                            obtain ⟨rfl, rfl⟩ := hrun
                            exact ⟨d2, rfl⟩
                        | str ss =>
                            simp only [Prod.mk.injEq] at hrun
                            obtain ⟨rfl, rfl⟩ := hrun
                            exact ⟨d2, rfl⟩
                        | ref ae =>
                            have hae : ae ∈ d2.map Prod.fst :=
                              hrE ae (by simp [refsOfVal])
                            simp only [] at hrun
                            rw [hfind_ext h d2 ae hx2.1 hae] at hrun
                            cases hfd : hfind d2 ae with
                            | none =>
                                rw [hfd] at hrun
                                simp only [Prod.mk.injEq] at hrun
                                obtain ⟨rfl, rfl⟩ := hrun
                                exact ⟨d2, rfl⟩
                            | some node =>
                                rw [hfd] at hrun
                                cases node with
                                | obj fs2 =>
                                    simp only [Prod.mk.injEq] at hrun
                                    obtain ⟨rfl, rfl⟩ := hrun
                                    exact ⟨d2, rfl⟩
                                | arr envs =>
                                    simp only [] at hrun
                                    have hrenvs : ∀ b ∈ refsList envs,
                                        b ∈ d2.map Prod.fst :=
                                      hx2.2 (ae, .arr envs) (hfind_mem d2 ae _ hfd)
                                    cases hloop : hdelOpqLoop (h ++ d2) envs with
                                    | mk h3 ok =>
                                      rw [hloop] at hrun
                                      obtain ⟨d3, rfl, hx3, hk3⟩ :=
                                        hdelOpqLoop_ext h envs d2 h3 ok hx2
                                          hrenvs hloop
                                      cases ok with
                                      | false =>
                                          simp only [Prod.mk.injEq] at hrun
                                          obtain ⟨rfl, rfl⟩ := hrun
                                          exact ⟨d3, rfl⟩
                                      | true =>
                                          simp only [] at hrun
                                          cases hsl : hspreadEnvList (h ++ d3)
                                              envs with
                                          | none =>
                                              rw [hsl] at hrun
                                              simp only [Prod.mk.injEq] at hrun
                                              obtain ⟨rfl, rfl⟩ := hrun
                                              exact ⟨d3, rfl⟩
                                          | some pr2 =>
                                              obtain ⟨h4, envs2⟩ := pr2
                                              rw [hsl] at hrun
                                              simp only [halloc] at hrun
                                              have hrenvs3 : ∀ b ∈ refsList envs,
                                                  b ∈ d3.map Prod.fst := by
                                                intro b hb
                                                rw [hk3]
                                                exact hrenvs b hb
                                              obtain ⟨d4, rfl, hx4, hr4, hk4⟩ :=
                                                hspreadEnvList_ext h envs d3 h4
                                                  envs2 hx3 hrenvs3 hsl
                                              obtain ⟨d5, hd5⟩ :=
                                                exists_append_one h d4
                                                  (hfresh (h ++ d4), .arr envs2)
                                              rw [hd5] at hrun
                                              cases cloned with
                                              | undef =>
                                                  simp only [Prod.mk.injEq] at hrun
                                                  obtain ⟨rfl, rfl⟩ := hrun
                                                  exact ⟨d5, rfl⟩
                                              | nullv =>
                                                  simp only [Prod.mk.injEq] at hrun
                                                  obtain ⟨rfl, rfl⟩ := hrun
                                                  exact ⟨d5, rfl⟩
                                              | boolv cb =>
                                                  simp only [Prod.mk.injEq] at hrun
                                                  obtain ⟨rfl, rfl⟩ := hrun
                                                  exact ⟨d5, rfl⟩
                                              | num cn =>
                                                  simp only [Prod.mk.injEq] at hrun
                                                  obtain ⟨rfl, rfl⟩ := hrun
                                                  exact ⟨d5, rfl⟩
                                              | str cs =>
                                                  simp only [Prod.mk.injEq] at hrun
                                                  obtain ⟨rfl, rfl⟩ := hrun
                                                  exact ⟨d5, rfl⟩
                                              | ref ra =>
                                                  simp only [] at hrun
                                                  cases hfr : hfind (h ++ d5) ra with
                                                  | none =>
                                                      rw [hfr] at hrun
                                                      simp only [Prod.mk.injEq] at hrun
                                                      obtain ⟨rfl, rfl⟩ := hrun
                                                      exact ⟨d5, rfl⟩
                                                  | some node2 =>
                                                      rw [hfr] at hrun
                                                      cases node2 with
                                                      | arr es2 =>
                                                          simp only [Prod.mk.injEq] at hrun
                                                          obtain ⟨rfl, rfl⟩ := hrun
                                                          exact ⟨d5, rfl⟩
                                                      | obj fs3 =>
                                                          simp only [halloc, Prod.mk.injEq] at hrun
                                                          obtain ⟨rfl, rfl⟩ := hrun
                                                          exact exists_append_one h d5 _

/-- C8: the migration `migrateToV1` never mutates its input. In the heap
embedding `hmigrateToV1`, however the call ends — already-current input
returned unchanged, successful migration, thrown TypeError, or exhausted
clone fuel — every object or array node allocated before the call is
bound to exactly the same node afterwards, so the input document graph
is deeply equal to what it was before the call: the `structuredClone`
copy receives all the `delete` statements and spreads. -/
theorem claim_c8_no_mutation (fuel : Nat) (h : Heap) (input : HVal)
    (h' : Heap) (res : Option HVal)
    (hrun : hmigrateToV1 fuel h input = (h', res)) :
    ∀ a ∈ h.map Prod.fst, hfind h' a = hfind h a := by
  obtain ⟨d, rfl⟩ := hmigrateToV1_frame fuel h input h' res hrun
  intro a ha
  exact hfind_append_left h d a ha

/-- The C8 frame theorem at the concrete legacy document of `c8heap`:
after running the migration on the report at address 1, that address
still holds its original node. -/
theorem claim_c8_witness :
    hfind (hmigrateToV1 10 c8heap (.ref 1)).1 1 = hfind c8heap 1 :=
  claim_c8_no_mutation 10 c8heap (.ref 1)
    (hmigrateToV1 10 c8heap (.ref 1)).1 (hmigrateToV1 10 c8heap (.ref 1)).2
    rfl 1 (by decide)
